import Mathlib

/-!
# A verification development for the base-N calculator (`calculator.go`)

The Go program keeps its whole state in one `calc` struct that the button and
menu callbacks mutate.  Here every callback is a function from a state to the
next state.  Go strings are byte sequences, so a string is a list of byte values;
the `strconv` routines the program calls (`ParseInt`, `ParseUint`, `FormatInt`) are
modelled after the Go standard library, with `int64`/`uint64` arithmetic done on
`Int`/`Nat` and reduced explicitly where Go wraps around.

A Go run-time panic (integer division by zero, `FormatInt` with an illegal base) is
an explicit outcome: functions that can panic return `Except Panic _`.
Logging (`log.Println`) and the widget tree (buttons, window, menu check marks) carry
no calculator state and are left out.
-/

namespace Calculator

/-! ## Go strings -/

/-- A Go string: its bytes, each a value in `0..255`. -/
abbrev GoString := List Nat

/-- The bytes (UTF-8) of a string literal of the source. -/
def lit (s : String) : GoString := s.toUTF8.data.toList.map UInt8.toNat

/-- Conversion `string(r)` of a rune (an `int32`) to a string: the UTF-8 encoding
of `r`, or of U+FFFD when `r` is not a valid code point. -/
def runeString (r : Int) : GoString :=
  let i : Nat := (r % 4294967296).toNat
  if i ≤ 0x7F then [i]
  else if i ≤ 0x7FF then [0xC0 ||| (i >>> 6) % 256, 0x80 ||| (i % 256 &&& 0x3F)]
  else if i > 0x10FFFF ∨ (0xD800 ≤ i ∧ i ≤ 0xDFFF) then [0xEF, 0xBF, 0xBD]
  else if i ≤ 0xFFFF then
    [0xE0 ||| (i >>> 12) % 256, 0x80 ||| ((i >>> 6) % 256 &&& 0x3F), 0x80 ||| (i % 256 &&& 0x3F)]
  else
    [0xF0 ||| (i >>> 18) % 256, 0x80 ||| ((i >>> 12) % 256 &&& 0x3F),
      0x80 ||| ((i >>> 6) % 256 &&& 0x3F), 0x80 ||| (i % 256 &&& 0x3F)]

/-! ## Machine integers -/

/-- The largest `uint64`. -/
def maxUint64 : Nat := 18446744073709551615

/-- Reduction of an integer to the `int64` it is stored as (two's complement). -/
def wrap64 (x : Int) : Int := (x + 9223372036854775808) % 18446744073709551616 - 9223372036854775808

/-- Reduction of an integer to the `int32` it is stored as (two's complement). -/
def wrap32 (x : Int) : Int := (x + 2147483648) % 4294967296 - 2147483648

/-- The values an `int64` can hold. -/
def inInt64 (x : Int) : Prop := -9223372036854775808 ≤ x ∧ x ≤ 9223372036854775807

instance (x : Int) : Decidable (inInt64 x) := by unfold inInt64; infer_instance

/-! ## `strconv` -/

/-- The error kinds of `strconv.NumError`: `ErrSyntax`, `ErrRange`, and the
"invalid base" error. -/
inductive NumErr where
  | ErrSyn
  | ErrRange
  | ErrBase
  deriving DecidableEq, Repr

/-- The run-time panics the program can raise. -/
inductive Panic where
  | divideByZero
  | illegalBase
  deriving DecidableEq, Repr

deriving instance DecidableEq for Except

/-- Go's `lower(c)`: `c | ('x' - 'X')`. -/
def lower (c : Nat) : Nat := c ||| 32

/-- The digit a byte stands for inside `ParseUint`, if it is a digit or a letter. -/
def digitVal (c : Nat) : Option Nat :=
  if 48 ≤ c ∧ c ≤ 57 then some (c - 48)
  else if 97 ≤ lower c ∧ lower c ≤ 122 then some (lower c - 97 + 10)
  else none

/-- The digit loop of `ParseUint`: `n` is the value so far, `us` records whether an
underscore has been skipped.  The error result carries the value Go returns with it. -/
def parseLoop (base : Nat) (base0 : Bool) : GoString → Nat → Bool → Except (Nat × NumErr) (Nat × Bool)
  | [], n, us => .ok (n, us)
  | c :: cs, n, us =>
    if c = 95 ∧ base0 = true then parseLoop base base0 cs n true
    else
      match digitVal c with
      | none => .error (0, .ErrSyn)
      | some d =>
        if d ≥ base then .error (0, .ErrSyn)
        else if n ≥ maxUint64 / base + 1 then .error (maxUint64, .ErrRange)
        else
          let n0 := n * base
          let n1 := (n0 + d) % 18446744073709551616
          if n1 < n0 ∨ n1 > maxUint64 then .error (maxUint64, .ErrRange)
          else parseLoop base base0 cs n1 us

/-- The scan of `underscoreOK` over the number proper; `saw` is the class of the last
byte: 94 at the start, 48 after a digit or base mark, 95 after an underscore, 33 otherwise. -/
def underscoreScan (hex : Bool) : GoString → Nat → Bool
  | [], saw => saw ≠ 95
  | c :: cs, saw =>
    if (48 ≤ c ∧ c ≤ 57) ∨ (hex = true ∧ 97 ≤ lower c ∧ lower c ≤ 102) then underscoreScan hex cs 48
    else if c = 95 then
      if saw ≠ 48 then false else underscoreScan hex cs 95
    else if saw = 95 then false
    else underscoreScan hex cs 33

/-- Go's `underscoreOK`: underscores only between digits or after a base mark. -/
def underscoreOK (s : GoString) : Bool :=
  let s1 := match s with
    | 45 :: t => t
    | 43 :: t => t
    | _ => s
  match s1 with
  | 48 :: c :: t =>
    if lower c = 98 ∨ lower c = 111 ∨ lower c = 120 then
      underscoreScan (decide (lower c = 120)) t 48
    else underscoreScan false s1 94
  | _ => underscoreScan false s1 94

/-- The base and the digits `ParseUint` settles on when called with base 0. -/
def detectBase (s : GoString) : Nat × GoString :=
  match s with
  | 48 :: rest =>
    match rest with
    | c :: t =>
      if s.length ≥ 3 ∧ lower c = 98 then (2, t)
      else if s.length ≥ 3 ∧ lower c = 111 then (8, t)
      else if s.length ≥ 3 ∧ lower c = 120 then (16, t)
      else (8, rest)
    | [] => (8, rest)
  | _ => (10, s)

/-- Go's `strconv.ParseUint(s, base, 64)`: the value and the error (`none` for `nil`). -/
def ParseUint (s : GoString) (base : Int) : Nat × Option NumErr :=
  if s = [] then (0, some .ErrSyn)
  else
    let run (b : Nat) (base0 : Bool) (t : GoString) : Nat × Option NumErr :=
      match parseLoop b base0 t 0 false with
      | .error (v, e) => (v, some e)
      | .ok (n, us) =>
        if us = true ∧ underscoreOK s = false then (0, some .ErrSyn) else (n, none)
    if 2 ≤ base ∧ base ≤ 36 then run base.toNat false s
    else if base = 0 then run (detectBase s).1 true (detectBase s).2
    else (0, some .ErrBase)

/-- Go's `strconv.ParseInt(s, base, 64)`: the value and the error (`none` for `nil`). -/
def ParseInt (s : GoString) (base : Int) : Int × Option NumErr :=
  match s with
  | [] => (0, some .ErrSyn)
  | c :: t =>
    let neg : Bool := decide (c = 45)
    let s1 : GoString := if c = 43 then t else if c = 45 then t else s
    match ParseUint s1 base with
    | (_, some .ErrSyn) => (0, some .ErrSyn)
    | (_, some .ErrBase) => (0, some .ErrBase)
    | (un, _) =>
      let cutoff : Nat := 9223372036854775808
      if neg = false ∧ un ≥ cutoff then ((cutoff : Int) - 1, some .ErrRange)
      else if neg = true ∧ un > cutoff then (-(cutoff : Int), some .ErrRange)
      else
        let n := wrap64 (un : Int)
        (if neg = true then wrap64 (-n) else n, none)

/-- The digit table of `strconv`. -/
def digits : GoString := lit "0123456789abcdefghijklmnopqrstuvwxyz"

/-- The byte `digits[d]`. -/
def digitAt (d : Nat) : Nat := digits.getD d 0

/-- The conversion loop of `formatBits` (general case): digits of `u` in base `b`, most
significant first, put in front of `a`.  The first argument bounds the number of
iterations; Go's buffer holds 65 bytes, and 64 iterations are never exceeded. -/
def formatLoop (b : Nat) : Nat → Nat → GoString → GoString
  | 0, u, a => digitAt (u % b) :: a
  | fuel + 1, u, a =>
    if u ≥ b then formatLoop b fuel (u / b) (digitAt (u - (u / b) * b) :: a)
    else digitAt u :: a

/-- Go's `strconv.FormatInt(i, base)`; it panics on a base outside `2..36`. -/
def FormatInt (i : Int) (base : Int) : Except Panic GoString :=
  if base < 2 ∨ base > 36 then .error .illegalBase
  else
    let neg : Bool := decide (i < 0)
    let u0 : Nat := (i % 18446744073709551616).toNat
    let u : Nat := if neg = true then (18446744073709551616 - u0) % 18446744073709551616 else u0
    let body := formatLoop base.toNat 64 u []
    .ok (if neg = true then 45 :: body else body)

/-! ## The calculator -/

/-- The fields of the Go struct `calc` that hold calculator state: `output` is the text
of the output label (`c.output.Text`), `res` the typed buffer, `base` the current base,
`prev` the previous number (a base-10 string) and `lastOp` the pending operator (a rune). -/
structure Calc where
  output : GoString
  res : GoString
  base : Int
  prev : GoString
  lastOp : Int
  deriving DecidableEq, Repr

/-- The message both failing paths put on the output label. -/
def errText : GoString := lit "error: cannot convert this number"

/-- Go's `newCalculator`. -/
def newCalculator : Calc :=
  { output := lit "", res := [], base := 10, prev := lit "0", lastOp := 43 }

namespace Calc

/-- The call `c.output.SetText(text)`. -/
def setText (c : Calc) (text : GoString) : Calc := { c with output := text }

/-- Go's `display`: stores the text in `res` and shows it on the output label. -/
def display (c : Calc) (text : GoString) : Calc := { c with res := text, output := text }

/-- Go's `character`: adds the rune to `res` and displays it. -/
def character (c : Calc) (char : Int) : Calc := c.display (c.res ++ runeString char)

/-- Go's `digit`: `c.character(rune(d) + 48)`. -/
def digit (c : Calc) (d : Int) : Calc := c.character (wrap32 (wrap32 d + 48))

/-- Go's `clear`. -/
def clear (c : Calc) : Calc := { c.display (lit "") with prev := lit "0", lastOp := 43 }

/-- Go's `backspace`. -/
def backspace (c : Calc) : Calc :=
  if c.res.length = 0 then c
  else if c.res = lit "error" then c.clear
  else c.display (c.res.take (c.res.length - 1))

/-- Go's `convertInt`: the returned string and error (`none` for `nil`); the method does
not use its receiver. -/
def convertInt (val : GoString) (fromBase toBase : Int) : Except Panic (GoString × Option NumErr) :=
  match ParseInt val fromBase with
  | (_, some err) => .ok (lit "", some err)
  | (intPart, none) =>
    match FormatInt intPart toBase with
    | .error p => .error p
    | .ok res => .ok (res, none)

/-- The tail every arm of the switch in `evaluate` shares: render `res` in the current
base, clear, show the rendering. -/
def showResult (c : Calc) (res : Int) : Except Panic Calc :=
  match FormatInt res 10 with
  | .error p => .error p
  | .ok dec =>
    match convertInt dec 10 c.base with
    | .error p => .error p
    | .ok (resInBase, _) => .ok (c.clear.setText resInBase)

/-- Go's `evaluate`. -/
def evaluate (c : Calc) : Except Panic Calc :=
  match ParseInt c.prev 10 with
  | (_, some _) => .ok (c.setText errText)
  | (prev, none) =>
    match (if c.output ≠ lit "" then ParseInt c.output c.base else (0, none)) with
    | (_, some _) => .ok (c.setText errText)
    | (cur, none) =>
      if c.lastOp = 43 then c.showResult (wrap64 (prev + cur))
      else if c.lastOp = 45 then c.showResult (wrap64 (prev - cur))
      else if c.lastOp = 42 then c.showResult (wrap64 (prev * cur))
      else if c.lastOp = 47 then
        if cur = 0 then .error .divideByZero
        else c.showResult (wrap64 (Int.tdiv prev cur))
      else .ok c

/-- The body every arm of the switch in `operation` shares. -/
def operationArm (c : Calc) (op : Int) : Except Panic Calc :=
  match c.evaluate with
  | .error p => .error p
  | .ok c1 =>
    let c2 := { c1 with lastOp := op }
    match convertInt c2.output c2.base 10 with
    | .error p => .error p
    | .ok (prev, _) => .ok { c2 with prev := prev }

/-- Go's `operation`. -/
def operation (c : Calc) (op : Int) : Except Panic Calc :=
  if op = 43 then c.operationArm 43
  else if op = 45 then c.operationArm 45
  else if op = 42 then c.operationArm 42
  else if op = 47 then c.operationArm 47
  else .ok c

/-- The callback of the menu item for `base` in `addMenu` (the spec's `setBase`). -/
def setBase (c : Calc) (base : Int) : Except Panic Calc :=
  match convertInt c.output c.base base with
  | .error p => .error p
  | .ok (res, err) =>
    let res := if err ≠ none then errText else res
    .ok ({ c with base := base }.setText res)

end Calc

/-! ## Vocabulary of the properties -/

/-- A byte that `ParseUint` accepts as a digit of base `b`. -/
def validDigit (b c : Nat) : Prop := ∃ d, digitVal c = some d ∧ d < b

/-- The number a byte sequence denotes in base `b` when read after the value `n`:
every byte contributes its digit, most significant first.  No bound applies. -/
def accVal (b : Nat) (n : Nat) (s : GoString) : Nat :=
  s.foldl (fun a c => a * b + (digitVal c).getD 0) n

/-- The string left after one leading sign is taken off. -/
def unsignedPart (s : GoString) : GoString :=
  match s with
  | [] => []
  | c :: t => if c = 43 then t else if c = 45 then t else c :: t

/-- Whether the string starts with a minus sign. -/
def isNeg (s : GoString) : Bool :=
  match s with
  | [] => false
  | c :: _ => decide (c = 45)

/-- The integer a signed digit string denotes in base `b`; no bound applies. -/
def intValue (b : Nat) (s : GoString) : Int :=
  if isNeg s = true then -(accVal b 0 (unsignedPart s) : Int) else (accVal b 0 (unsignedPart s) : Int)

/-- A digit of base `b` as the calculator's buttons write it: `0`-`9` or lowercase
`a`-`f`, with value below `b`. -/
def lowerDigit (b c : Nat) : Prop :=
  (48 ≤ c ∧ c ≤ 57 ∧ c - 48 < b) ∨ (97 ≤ c ∧ c ≤ 102 ∧ c - 87 < b)

instance (b c : Nat) : Decidable (lowerDigit b c) := by unfold lowerDigit; infer_instance

/-- A digit of base `b` in either letter case: `0`-`9`, `a`-`f` or `A`-`F`, with value
below `b`. -/
def anyCaseDigit (b c : Nat) : Prop :=
  lowerDigit b c ∨ (65 ≤ c ∧ c ≤ 70 ∧ c - 55 < b)

instance (b c : Nat) : Decidable (anyCaseDigit b c) := by unfold anyCaseDigit; infer_instance

/-- The exact result of `p op c` for an operator rune `op` among `+ - * /`, division
truncating toward zero. -/
def exactOp (op : Int) (p c : Int) : Int :=
  if op = 43 then p + c
  else if op = 45 then p - c
  else if op = 42 then p * c
  else Int.tdiv p c

/-- The `int64` result of `p op c`: the exact result reduced to 64 bits. -/
def arith (op : Int) (p c : Int) : Int := wrap64 (exactOp op p c)

/-- A non-empty string of digits of base `b` (either letter case) whose value is an `int64`. -/
def isOperand (b : Nat) (x : GoString) : Prop :=
  x ≠ [] ∧ (∀ c ∈ x, anyCaseDigit b c) ∧ inInt64 (accVal b 0 x)

instance (b : Nat) (x : GoString) : Decidable (isOperand b x) := by unfold isOperand; infer_instance

/-- The operator runes `+`, `-`, `*`, `/`. -/
def isOperator (op : Int) : Prop := op = 43 ∨ op = 45 ∨ op = 42 ∨ op = 47

instance (op : Int) : Decidable (isOperator op) := by unfold isOperator; infer_instance

/-- The current operand `evaluate` reads: zero for an empty label, else the parsed label. -/
def readsCurrent (s : Calc) (c : Int) : Prop :=
  (s.output = [] ∧ c = 0) ∨ ParseInt s.output s.base = (c, none)

/-- What the user interface can do to the calculator: the digit buttons, the letter
buttons, the operator buttons, `=`, `CE`, backspace, and the items of the base menu. -/
inductive Action where
  | digit (d : Int)
  | character (char : Int)
  | operation (op : Int)
  | evaluate
  | clear
  | backspace
  | setBase (base : Int)
  deriving DecidableEq, Repr

/-- The effect of one action. -/
def step (c : Calc) : Action → Except Panic Calc
  | .digit d => .ok (c.digit d)
  | .character char => .ok (c.character char)
  | .operation op => c.operation op
  | .evaluate => c.evaluate
  | .clear => .ok c.clear
  | .backspace => .ok c.backspace
  | .setBase base => c.setBase base

/-- The effect of a sequence of actions; a panic ends the run. -/
def runActions (c : Calc) : List Action → Except Panic Calc
  | [] => .ok c
  | a :: as =>
    match step c a with
    | .error p => .error p
    | .ok c1 => runActions c1 as

/-- The button that types the byte `k`: a digit button for `0`-`9`, else a letter button. -/
def keyAction (k : Nat) : Action :=
  if 48 ≤ k ∧ k ≤ 57 then .digit ((k : Int) - 48) else .character (k : Int)

/-- The button presses that type the string `x`. -/
def keys (x : GoString) : List Action := x.map keyAction

/-- The actions the user interface offers: digit buttons `0`-`9`, letter buttons `a`-`f`,
operator buttons `+ - * /`, `=`, `CE`, backspace, and the base menu items `2`..`16`. -/
def uiAction : Action → Prop
  | .digit d => 0 ≤ d ∧ d ≤ 9
  | .character char => 97 ≤ char ∧ char ≤ 102
  | .operation op => isOperator op
  | .evaluate => True
  | .clear => True
  | .backspace => True
  | .setBase base => 2 ≤ base ∧ base ≤ 16

instance (a : Action) : Decidable (uiAction a) := by
  cases a <;> unfold uiAction <;> infer_instance

/-- A string over the characters `0`-`9` and `a`-`f`. -/
def calculatorDigits (s : GoString) : Prop := ∀ c ∈ s, lowerDigit 16 c

instance (s : GoString) : Decidable (calculatorDigits s) := by
  unfold calculatorDigits; infer_instance

/-! ## Reading digit strings -/

theorem accVal_nil (b n : Nat) : accVal b n [] = n := rfl

theorem accVal_cons (b n c : Nat) (cs : GoString) :
    accVal b n (c :: cs) = accVal b (n * b + (digitVal c).getD 0) cs := rfl

theorem accVal_append (b n : Nat) (xs ys : GoString) :
    accVal b n (xs ++ ys) = accVal b (accVal b n xs) ys := by
  simp [accVal, List.foldl_append]

theorem le_accVal (b : Nat) (hb : 1 ≤ b) (s : GoString) : ∀ n, n ≤ accVal b n s := by
  induction s with
  | nil => intro n; simp [accVal_nil]
  | cons c cs ih =>
    intro n
    rw [accVal_cons]
    have h1 := ih (n * b + (digitVal c).getD 0)
    have h2 : n ≤ n * b := Nat.le_mul_of_pos_right n hb
    omega

theorem cutoff_iff (b n : Nat) (hb : 1 ≤ b) :
    n ≥ maxUint64 / b + 1 ↔ 18446744073709551616 ≤ n * b := by
  unfold maxUint64
  constructor
  · intro h
    have h1 : 18446744073709551615 / b < n := by omega
    have h2 := (Nat.div_lt_iff_lt_mul hb).mp h1
    omega
  · intro h
    have h2 : 18446744073709551615 / b < n := (Nat.div_lt_iff_lt_mul hb).mpr (by omega)
    omega

/-- On a string of digits of base `b` the loop of `ParseUint` computes the denoted
number when that number fits in 64 bits, and reports a range error otherwise. -/
theorem parseLoop_valid (b : Nat) (hb : 2 ≤ b) (hb36 : b ≤ 36) (s : GoString) :
    ∀ (n : Nat) (us : Bool), n < 18446744073709551616 → (∀ c ∈ s, validDigit b c) →
      parseLoop b false s n us =
        if accVal b n s < 18446744073709551616 then .ok (accVal b n s, us)
        else .error (maxUint64, .ErrRange) := by
  induction s with
  | nil =>
    intro n us hn _
    simp [parseLoop, accVal_nil, hn]
  | cons c cs ih =>
    intro n us hn hv
    obtain ⟨d, hd, hdb⟩ := hv c (List.mem_cons_self c cs)
    have hrest : ∀ x ∈ cs, validDigit b x := fun x hx => hv x (List.mem_cons_of_mem c hx)
    have hge := le_accVal b (by omega) cs (n * b + d)
    have hcut := cutoff_iff b n (by omega)
    rw [accVal_cons, hd, Option.getD_some]
    simp only [parseLoop, hd, Bool.false_eq_true, and_false, if_false]
    rw [if_neg (by omega : ¬ d ≥ b)]
    by_cases h1 : n ≥ maxUint64 / b + 1
    · rw [if_pos h1, if_neg (by omega)]
    · rw [if_neg h1]
      have h2 : n * b < 18446744073709551616 := by omega
      by_cases h3 : n * b + d < 18446744073709551616
      · have h4 : (n * b + d) % 18446744073709551616 = n * b + d := Nat.mod_eq_of_lt h3
        simp only [h4]
        rw [if_neg (by unfold maxUint64; omega)]
        exact ih (n * b + d) us h3 hrest
      · have h4 : (n * b + d) % 18446744073709551616 = n * b + d - 18446744073709551616 := by
          omega
        simp only [h4]
        rw [if_pos (by left; omega), if_neg (by omega)]

theorem digitVal_digitAt : ∀ d < 36, digitVal (digitAt d) = some d := by decide

theorem digitAt_not_sign : ∀ d < 36, digitAt d ≠ 43 ∧ digitAt d ≠ 45 := by decide

theorem validDigit_digitAt (b d : Nat) (hb : b ≤ 36) (hd : d < b) : validDigit b (digitAt d) :=
  ⟨d, digitVal_digitAt d (by omega), hd⟩

theorem validDigit_not_sign (b c : Nat) (h : validDigit b c) : c ≠ 43 ∧ c ≠ 45 := by
  obtain ⟨d, hd, _⟩ := h
  have h43 : digitVal 43 = none := by decide
  have h45 : digitVal 45 = none := by decide
  constructor
  · rintro rfl
    rw [h43] at hd
    cases hd
  · rintro rfl
    rw [h45] at hd
    cases hd

/-- Outcome of `ParseUint` on a non-empty string of digits of a base in `2..36`. -/
theorem ParseUint_valid (b : Int) (hb : 2 ≤ b ∧ b ≤ 36) (s : GoString) (hne : s ≠ [])
    (hv : ∀ c ∈ s, validDigit b.toNat c) :
    ParseUint s b =
      if accVal b.toNat 0 s < 18446744073709551616 then (accVal b.toNat 0 s, none)
      else (maxUint64, some .ErrRange) := by
  have h := parseLoop_valid b.toNat (by omega) (by omega) s 0 false (by omega) hv
  unfold ParseUint
  rw [if_neg hne, if_pos hb]
  simp only [h]
  by_cases hA : accVal b.toNat 0 s < 18446744073709551616
  · simp [hA]
  · simp [hA]

/-- Outcome of `ParseInt` on an optional sign followed by one or more digits of a base
in `2..36`: the denoted integer when it is an `int64`, a range error otherwise. -/
theorem ParseInt_wellformed (b : Int) (hb : 2 ≤ b ∧ b ≤ 36) (s : GoString)
    (hne : unsignedPart s ≠ []) (hv : ∀ c ∈ unsignedPart s, validDigit b.toNat c) :
    ParseInt s b =
      if inInt64 (intValue b.toNat s) then (intValue b.toNat s, none)
      else (if isNeg s = true then -9223372036854775808 else 9223372036854775807, some .ErrRange) := by
  cases s with
  | nil => exact absurd rfl hne
  | cons c t =>
    have hU := ParseUint_valid b hb (unsignedPart (c :: t)) hne hv
    unfold ParseInt
    by_cases h43 : c = 43
    · subst h43
      simp only [unsignedPart, if_true] at hU hne hv
      have hd : decide ((43 : Nat) = 45) = false := rfl
      by_cases hA : accVal b.toNat 0 t < 18446744073709551616
      · rw [if_pos hA] at hU
        simp only [if_true, hU, intValue, isNeg, unsignedPart, inInt64, wrap64, maxUint64, hd]
        generalize accVal b.toNat 0 t = A at *
        split_ifs <;> simp at * <;> omega
      · rw [if_neg hA] at hU
        simp only [if_true, hU, intValue, isNeg, unsignedPart, inInt64, wrap64, maxUint64, hd]
        generalize accVal b.toNat 0 t = A at *
        split_ifs <;> simp at *
        all_goals omega
    · by_cases h45 : c = 45
      · subst h45
        simp only [unsignedPart, if_true, if_neg h43] at hU hne hv
        have hd : decide ((45 : Nat) = 45) = true := rfl
        by_cases hA : accVal b.toNat 0 t < 18446744073709551616
        · rw [if_pos hA] at hU
          simp only [if_true, if_neg h43, hU, intValue, isNeg, unsignedPart, inInt64, wrap64,
            maxUint64, hd]
          generalize accVal b.toNat 0 t = A at *
          split_ifs <;> simp at * <;> omega
        · rw [if_neg hA] at hU
          simp only [if_true, if_neg h43, hU, intValue, isNeg, unsignedPart, inInt64, wrap64,
            maxUint64, hd]
          generalize accVal b.toNat 0 t = A at *
          split_ifs <;> simp at *
          all_goals omega
      · simp only [unsignedPart, if_neg h43, if_neg h45] at hU hne hv
        have hd : decide (c = 45) = false := by simp [h45]
        by_cases hA : accVal b.toNat 0 (c :: t) < 18446744073709551616
        · rw [if_pos hA] at hU
          simp only [if_neg h43, if_neg h45, hU, intValue, isNeg, unsignedPart, inInt64, wrap64,
            maxUint64, hd]
          generalize accVal b.toNat 0 (c :: t) = A at *
          split_ifs <;> simp at * <;> omega
        · rw [if_neg hA] at hU
          simp only [if_neg h43, if_neg h45, hU, intValue, isNeg, unsignedPart, inInt64, wrap64,
            maxUint64, hd]
          generalize accVal b.toNat 0 (c :: t) = A at *
          split_ifs <;> simp at *
          all_goals omega

/-! ## Writing digit strings -/

theorem formatLoop_append (b : Nat) : ∀ (fuel u : Nat) (a : GoString),
    formatLoop b fuel u a = formatLoop b fuel u [] ++ a := by
  intro fuel
  induction fuel with
  | zero => intro u a; simp [formatLoop]
  | succ k ih =>
    intro u a
    simp only [formatLoop]
    by_cases h : u ≥ b
    · rw [if_pos h, if_pos h, ih (u / b) (digitAt (u - u / b * b) :: a),
        ih (u / b) [digitAt (u - u / b * b)]]
      simp
    · rw [if_neg h, if_neg h]
      simp

theorem formatLoop_ne_nil (b fuel u : Nat) : formatLoop b fuel u [] ≠ [] := by
  cases fuel with
  | zero => simp [formatLoop]
  | succ k =>
    simp only [formatLoop]
    by_cases h : u ≥ b
    · rw [if_pos h, formatLoop_append]
      simp
    · rw [if_neg h]
      simp

theorem sub_div_mul (u b : Nat) : u - u / b * b = u % b := by
  have := Nat.div_add_mod u b
  have h2 : u / b * b = b * (u / b) := Nat.mul_comm _ _
  omega

/-- Every byte `formatLoop` writes is `digits[d]` for a digit `d` of the base. -/
theorem formatLoop_digits (b : Nat) (hb : 2 ≤ b) : ∀ (fuel u : Nat),
    ∀ c ∈ formatLoop b fuel u [], ∃ d, d < b ∧ c = digitAt d := by
  intro fuel
  induction fuel with
  | zero =>
    intro u c hc
    simp only [formatLoop, List.mem_singleton] at hc
    exact ⟨u % b, Nat.mod_lt u (by omega), hc⟩
  | succ k ih =>
    intro u c hc
    simp only [formatLoop] at hc
    by_cases h : u ≥ b
    · rw [if_pos h, formatLoop_append, List.mem_append, List.mem_singleton] at hc
      rcases hc with hc | hc
      · exact ih (u / b) c hc
      · exact ⟨u % b, Nat.mod_lt u (by omega), by rw [hc, sub_div_mul]⟩
    · rw [if_neg h, List.mem_singleton] at hc
      exact ⟨u, by omega, hc⟩

/-- Reading back what `formatLoop` wrote gives the number, when the iteration bound
is large enough for it. -/
theorem accVal_formatLoop (b : Nat) (hb : 2 ≤ b) (hb36 : b ≤ 36) : ∀ (fuel u : Nat),
    u < b ^ (fuel + 1) → accVal b 0 (formatLoop b fuel u []) = u := by
  intro fuel
  induction fuel with
  | zero =>
    intro u hu
    have hu2 : u < b := by simpa using hu
    simp [formatLoop, accVal, Nat.mod_eq_of_lt hu2, digitVal_digitAt u (by omega)]
  | succ k ih =>
    intro u hu
    simp only [formatLoop]
    by_cases h : u ≥ b
    · have hq : u / b < b ^ (k + 1) := by
        rw [Nat.div_lt_iff_lt_mul (by omega)]
        calc u < b ^ (k + 1 + 1) := hu
          _ = b ^ (k + 1) * b := by rw [Nat.pow_succ]
      have hm : u % b < b := Nat.mod_lt u (by omega)
      rw [if_pos h, formatLoop_append, accVal_append, ih (u / b) hq, sub_div_mul, accVal_cons,
        accVal_nil, digitVal_digitAt (u % b) (by omega), Option.getD_some]
      have := Nat.div_add_mod u b
      have h2 : u / b * b = b * (u / b) := Nat.mul_comm _ _
      omega
    · rw [if_neg h]
      simp [accVal, digitVal_digitAt u (by omega)]

theorem lt_pow_65 (b u : Nat) (hb : 2 ≤ b) (hu : u < 18446744073709551616) : u < b ^ (64 + 1) := by
  have h1 : (2 : Nat) ^ (64 + 1) ≤ b ^ (64 + 1) := Nat.pow_le_pow_left hb (64 + 1)
  have h2 : (2 : Nat) ^ (64 + 1) = 36893488147419103232 := by norm_num
  omega

/-- The string `FormatInt` returns: a minus sign for a negative number, then the digits
of the magnitude. -/
theorem FormatInt_eq (n b : Int) (hb : 2 ≤ b ∧ b ≤ 36) (hn : inInt64 n) :
    FormatInt n b = .ok (if n < 0 then 45 :: formatLoop b.toNat 64 n.natAbs []
      else formatLoop b.toNat 64 n.natAbs []) := by
  unfold inInt64 at hn
  unfold FormatInt
  rw [if_neg (by omega)]
  by_cases h : n < 0
  · have e1 : (18446744073709551616 - (n % 18446744073709551616).toNat) % 18446744073709551616
        = n.natAbs := by omega
    simp [h, e1]
  · have e1 : (n % 18446744073709551616).toNat = n.natAbs := by omega
    simp [h, e1]

/-- `ParseInt` reads back what `FormatInt` wrote, in every base `2..36`. -/
theorem ParseInt_FormatInt (n b : Int) (hb : 2 ≤ b ∧ b ≤ 36) (hn : inInt64 n) :
    ∃ s, FormatInt n b = .ok s ∧ ParseInt s b = (n, none) := by
  have hb2 : 2 ≤ b.toNat := by omega
  have hb36 : b.toNat ≤ 36 := by omega
  have hn2 := hn
  unfold inInt64 at hn2
  have hval : accVal b.toNat 0 (formatLoop b.toNat 64 n.natAbs []) = n.natAbs :=
    accVal_formatLoop b.toNat hb2 hb36 64 n.natAbs (lt_pow_65 _ _ hb2 (by omega))
  have hvalid : ∀ c ∈ formatLoop b.toNat 64 n.natAbs [], validDigit b.toNat c := by
    intro c hc
    obtain ⟨d, hd, rfl⟩ := formatLoop_digits b.toNat hb2 64 n.natAbs c hc
    exact validDigit_digitAt _ _ hb36 hd
  have hne := formatLoop_ne_nil b.toNat 64 n.natAbs
  rw [FormatInt_eq n b hb hn]
  refine ⟨_, rfl, ?_⟩
  by_cases h : n < 0
  · rw [if_pos h]
    have hW := ParseInt_wellformed b hb (45 :: formatLoop b.toNat 64 n.natAbs [])
      (by simpa [unsignedPart] using hne) (by simpa [unsignedPart] using hvalid)
    rw [hW]
    have hiv : intValue b.toNat (45 :: formatLoop b.toNat 64 n.natAbs []) = n := by
      simp only [intValue, isNeg, unsignedPart, hval]
      simp
      omega
    rw [hiv, if_pos hn]
  · rw [if_neg h]
    obtain ⟨c, t, hct⟩ := List.exists_cons_of_ne_nil hne
    have hc := validDigit_not_sign _ c (hvalid c (by rw [hct]; exact List.mem_cons_self c t))
    have hup : unsignedPart (formatLoop b.toNat 64 n.natAbs []) = formatLoop b.toNat 64 n.natAbs [] := by
      rw [hct]; simp [unsignedPart, hc.1, hc.2]
    have hng : isNeg (formatLoop b.toNat 64 n.natAbs []) = false := by
      rw [hct]; simp [isNeg, hc.2]
    have hW := ParseInt_wellformed b hb (formatLoop b.toNat 64 n.natAbs [])
      (by rw [hup]; exact hne) (by rw [hup]; exact hvalid)
    rw [hW]
    have hiv : intValue b.toNat (formatLoop b.toNat 64 n.natAbs []) = n := by
      simp only [intValue, hng, hup, hval]
      simp
      omega
    rw [hiv, if_pos hn]

/-! ## Which bytes are digits -/

theorem le_lower (c : Nat) : c ≤ lower c := by
  unfold lower
  apply Nat.le_of_testBit
  intro i hi
  simp [Nat.testBit_or, hi]

theorem digitVal_high (c : Nat) (hc : 128 ≤ c) : digitVal c = none := by
  have h := le_lower c
  unfold digitVal
  rw [if_neg (by omega), if_neg (by omega)]

theorem digitVal_low_table : ∀ c < 128, ∀ b < 17,
    (digitVal c).all (fun d => decide (d < b → anyCaseDigit b c)) = true := by decide

theorem anyCaseDigit_of_validDigit (b c : Nat) (hb : b ≤ 16) (h : validDigit b c) :
    anyCaseDigit b c := by
  obtain ⟨d, hd, hdb⟩ := h
  by_cases hc : c < 128
  · have := digitVal_low_table c hc b (by omega)
    rw [hd] at this
    simp only [Option.all_some, decide_eq_true_eq] at this
    exact this hdb
  · rw [digitVal_high c (by omega)] at hd
    cases hd

theorem digitVal_upper_table : ∀ c < 71, 65 ≤ c → digitVal c = some (c - 55) := by decide

theorem digitVal_lower_table : ∀ c < 103, 97 ≤ c → digitVal c = some (c - 87) := by decide

theorem validDigit_of_anyCaseDigit (b c : Nat) (h : anyCaseDigit b c) : validDigit b c := by
  rcases h with (⟨h1, h2, h3⟩ | ⟨h1, h2, h3⟩) | ⟨h1, h2, h3⟩
  · exact ⟨c - 48, by simp [digitVal, h1, h2], h3⟩
  · exact ⟨c - 87, digitVal_lower_table c (by omega) h1, h3⟩
  · exact ⟨c - 55, digitVal_upper_table c (by omega) h1, h3⟩

theorem lowerDigit_digitAt_table : ∀ b < 17, ∀ d < b, lowerDigit b (digitAt d) := by decide

/-! ## Rejected strings -/

/-- A byte that is not a digit of the base makes the loop of `ParseUint` fail: with a
syntax error at that byte, or with a range error before it is reached. -/
theorem parseLoop_invalid (b : Nat) (s : GoString) :
    (∃ c ∈ s, ¬ validDigit b c) → ∀ (n : Nat) (us : Bool),
      parseLoop b false s n us = .error (0, .ErrSyn) ∨
        parseLoop b false s n us = .error (maxUint64, .ErrRange) := by
  induction s with
  | nil => rintro ⟨c, hc, _⟩; cases hc
  | cons c cs ih =>
    rintro ⟨x, hx, hbad⟩ n us
    simp only [parseLoop, Bool.false_eq_true, and_false, if_false]
    cases hd : digitVal c with
    | none => left; rfl
    | some d =>
      simp only []
      by_cases h1 : d ≥ b
      · rw [if_pos h1]; left; rfl
      · rw [if_neg h1]
        by_cases h2 : n ≥ maxUint64 / b + 1
        · rw [if_pos h2]; right; rfl
        · rw [if_neg h2]
          by_cases h3 : (n * b + d) % 18446744073709551616 < n * b ∨
              (n * b + d) % 18446744073709551616 > maxUint64
          · rw [if_pos h3]; right; rfl
          · rw [if_neg h3]
            apply ih
            rcases List.mem_cons.mp hx with rfl | hx2
            · exact absurd ⟨d, hd, by omega⟩ hbad
            · exact ⟨x, hx2, hbad⟩

/-- In every base `2..36`, `ParseUint` fails on the empty string and on a string with a
byte that is not a digit of the base. -/
theorem ParseUint_invalid (b : Int) (hb : 2 ≤ b ∧ b ≤ 36) (s : GoString)
    (h : s = [] ∨ ∃ c ∈ s, ¬ validDigit b.toNat c) :
    ParseUint s b = (0, some .ErrSyn) ∨ ParseUint s b = (maxUint64, some .ErrRange) := by
  unfold ParseUint
  by_cases hs : s = []
  · rw [if_pos hs]; left; rfl
  · rw [if_neg hs, if_pos hb]
    rcases h with h | h
    · exact absurd h hs
    · rcases parseLoop_invalid b.toNat s h 0 false with h1 | h1
      · left; simp only [h1]
      · right; simp only [h1]

/-- In every base `2..36`, `ParseInt` fails when the string, one leading sign apart, is
empty or has a byte that is not a digit of the base. -/
theorem ParseInt_invalid (b : Int) (hb : 2 ≤ b ∧ b ≤ 36) (s : GoString)
    (h : unsignedPart s = [] ∨ ∃ c ∈ unsignedPart s, ¬ validDigit b.toNat c) :
    ∃ v e, ParseInt s b = (v, some e) := by
  cases s with
  | nil => exact ⟨0, .ErrSyn, rfl⟩
  | cons c t =>
    have hU := ParseUint_invalid b hb (unsignedPart (c :: t)) h
    unfold ParseInt
    simp only [unsignedPart] at hU
    rcases hU with hU | hU
    · simp only [hU]
      exact ⟨_, _, rfl⟩
    · simp only [hU, maxUint64]
      by_cases hneg : c = 45
      · simp [hneg]
      · simp [hneg]


/-! ## `convertInt` -/

theorem wrap64_inInt64 (x : Int) : inInt64 (wrap64 x) := by
  unfold inInt64 wrap64
  omega

theorem wrap64_id (x : Int) (h : inInt64 x) : wrap64 x = x := by
  unfold inInt64 at h
  unfold wrap64
  omega

/-- A number `ParseInt` returns without error is an `int64`. -/
theorem ParseInt_inInt64 (s : GoString) (b v : Int) (h : ParseInt s b = (v, none)) : inInt64 v := by
  cases s with
  | nil => simp [ParseInt] at h
  | cons c t =>
    simp only [ParseInt] at h
    split at h
    · simp at h
    · simp at h
    · split_ifs at h <;> simp only [Prod.mk.injEq] at h
      · exact absurd h.2 (by simp)
      · exact absurd h.2 (by simp)
      · rw [← h.1]
        exact wrap64_inInt64 _
      · rw [← h.1]
        exact wrap64_inInt64 _

theorem FormatInt_ok (n b : Int) (hb : 2 ≤ b ∧ b ≤ 36) : ∃ r, FormatInt n b = .ok r := by
  unfold FormatInt
  rw [if_neg (by omega)]
  exact ⟨_, rfl⟩

theorem convertInt_err (val : GoString) (f t v : Int) (e : NumErr)
    (h : ParseInt val f = (v, some e)) : Calc.convertInt val f t = .ok (lit "", some e) := by
  simp [Calc.convertInt, h]

theorem convertInt_ok (val r : GoString) (f t v : Int)
    (h : ParseInt val f = (v, none)) (hr : FormatInt v t = .ok r) :
    Calc.convertInt val f t = .ok (r, none) := by
  simp [Calc.convertInt, h, hr]

/-- With a target base in `2..36`, `convertInt` does not panic. -/
theorem convertInt_total (val : GoString) (f t : Int) (ht : 2 ≤ t ∧ t ≤ 36) :
    ∃ r e, Calc.convertInt val f t = .ok (r, e) := by
  cases hp : ParseInt val f with
  | mk v err =>
    cases err with
    | some e => exact ⟨_, _, convertInt_err val f t v e hp⟩
    | none =>
      obtain ⟨r, hr⟩ := FormatInt_ok v t ht
      exact ⟨r, none, convertInt_ok val r f t v hp hr⟩

/-- A successful `convertInt` parsed its argument and formatted the number. -/
theorem convertInt_success (val r : GoString) (f t : Int)
    (h : Calc.convertInt val f t = .ok (r, none)) :
    ∃ v, ParseInt val f = (v, none) ∧ FormatInt v t = .ok r := by
  cases hp : ParseInt val f with
  | mk v err =>
    cases err with
    | some e =>
      rw [convertInt_err val f t v e hp] at h
      simp at h
    | none =>
      refine ⟨v, rfl, ?_⟩
      simp only [Calc.convertInt, hp] at h
      cases hf : FormatInt v t with
      | error p => simp [hf] at h
      | ok r2 =>
        simp only [hf, Except.ok.injEq, Prod.mk.injEq, and_true] at h
        rw [h]

/-- Converting the rendering of an `int64` from its base to another base gives the
rendering in the other base. -/
theorem convertInt_FormatInt (n f t : Int) (hf : 2 ≤ f ∧ f ≤ 36) (ht : 2 ≤ t ∧ t ≤ 36)
    (hn : inInt64 n) :
    ∃ s r, FormatInt n f = .ok s ∧ FormatInt n t = .ok r ∧
      Calc.convertInt s f t = .ok (r, none) := by
  obtain ⟨s, hs, hp⟩ := ParseInt_FormatInt n f hf hn
  obtain ⟨r, hr⟩ := FormatInt_ok n t ht
  exact ⟨s, r, hs, hr, convertInt_ok s r f t n hp hr⟩

/-! ## The claims about `convertInt` -/

/-- C4: for every base `b` in `2..16` and every `int64` `n`, `convertInt` applied to
`FormatInt(n, b)` with `fromBase = b` and `toBase = 10` succeeds and returns exactly
`FormatInt(n, 10)`, the base-10 string of `n`. -/
theorem convertInt_roundtrip (b n : Int) (hb : 2 ≤ b ∧ b ≤ 16) (hn : inInt64 n) :
    ∃ s d, FormatInt n b = .ok s ∧ FormatInt n 10 = .ok d ∧
      Calc.convertInt s b 10 = .ok (d, none) :=
  convertInt_FormatInt n b 10 ⟨hb.1, by omega⟩ (by decide) hn

/-- An instance of the round trip: `-255` written in base 16. -/
theorem convertInt_roundtrip_witness :
    (2 ≤ (16 : Int) ∧ (16 : Int) ≤ 16) ∧ inInt64 (-255) ∧
      ∃ s d, FormatInt (-255) 16 = .ok s ∧ FormatInt (-255) 10 = .ok d ∧
        Calc.convertInt s 16 10 = .ok (d, none) :=
  ⟨by decide, by decide, convertInt_roundtrip 16 (-255) (by decide) (by decide)⟩

/-- C5 as stated fails: `F` and `-` are outside the digit alphabet `0-9`, `a-f` of base 16
and of base 10, yet `convertInt("F", 16, 10)` returns `"15"` and `convertInt("-5", 10, 10)`
returns `"-5"`, both without error. -/
theorem convertInt_accepts_uppercase_and_sign :
    ((∃ c ∈ lit "F", ¬ lowerDigit 16 c) ∧
        Calc.convertInt (lit "F") 16 10 = .ok (lit "15", none)) ∧
      ((∃ c ∈ lit "-5", ¬ lowerDigit 10 c) ∧
        Calc.convertInt (lit "-5") 10 10 = .ok (lit "-5", none)) := by
  decide

/-- C5, amended: for every `fromBase` and `toBase` in `2..16` and every string `val` that,
one leading `+` or `-` apart, contains a byte that is not a digit of `fromBase` in either
letter case (`0-9`, `a-f`, `A-F` with value below `fromBase`), `convertInt(val, fromBase,
toBase)` returns an error, together with the empty string. -/
theorem convertInt_rejects_invalid_digit (val : GoString) (fromBase toBase : Int)
    (hf : 2 ≤ fromBase ∧ fromBase ≤ 16) (_ht : 2 ≤ toBase ∧ toBase ≤ 16)
    (h : ∃ c ∈ unsignedPart val, ¬ anyCaseDigit fromBase.toNat c) :
    ∃ e, Calc.convertInt val fromBase toBase = .ok (lit "", some e) := by
  obtain ⟨c, hc, hbad⟩ := h
  have hbad2 : ¬ validDigit fromBase.toNat c :=
    fun hv => hbad (anyCaseDigit_of_validDigit _ c (by omega) hv)
  obtain ⟨v, e, hp⟩ := ParseInt_invalid fromBase ⟨hf.1, by omega⟩ val (Or.inr ⟨c, hc, hbad2⟩)
  exact ⟨e, convertInt_err val fromBase toBase v e hp⟩

/-- The spec's instance: `convertInt("z", 16, 10)` fails. -/
theorem convertInt_rejects_invalid_digit_witness :
    (2 ≤ (16 : Int) ∧ (16 : Int) ≤ 16) ∧ (2 ≤ (10 : Int) ∧ (10 : Int) ≤ 16) ∧
      (∃ c ∈ unsignedPart (lit "z"), ¬ anyCaseDigit (16 : Int).toNat c) ∧
      ∃ e, Calc.convertInt (lit "z") 16 10 = .ok (lit "", some e) :=
  ⟨by decide, by decide, by decide,
    convertInt_rejects_invalid_digit (lit "z") 16 10 (by decide) (by decide) (by decide)⟩

/-- C6: for every `fromBase` and `toBase` in `2..16` and every digit string `val` of
`fromBase`, optionally signed, whose value lies outside `[-2^63, 2^63-1]`,
`convertInt(val, fromBase, toBase)` returns a range error and no number. -/
theorem convertInt_rejects_out_of_range (val : GoString) (fromBase toBase : Int)
    (hf : 2 ≤ fromBase ∧ fromBase ≤ 16) (_ht : 2 ≤ toBase ∧ toBase ≤ 16)
    (hne : unsignedPart val ≠ [])
    (hv : ∀ c ∈ unsignedPart val, anyCaseDigit fromBase.toNat c)
    (hout : ¬ inInt64 (intValue fromBase.toNat val)) :
    Calc.convertInt val fromBase toBase = .ok (lit "", some .ErrRange) := by
  have hW := ParseInt_wellformed fromBase ⟨hf.1, by omega⟩ val hne
    (fun c hc => validDigit_of_anyCaseDigit _ c (hv c hc))
  rw [if_neg hout] at hW
  exact convertInt_err val fromBase toBase _ .ErrRange hW

/-- The instance `"9223372036854775808"` in base 10, one above the largest `int64`. -/
theorem convertInt_rejects_out_of_range_witness :
    (2 ≤ (10 : Int) ∧ (10 : Int) ≤ 16) ∧ (2 ≤ (16 : Int) ∧ (16 : Int) ≤ 16) ∧
      unsignedPart (lit "9223372036854775808") ≠ [] ∧
      (∀ c ∈ unsignedPart (lit "9223372036854775808"), anyCaseDigit (10 : Int).toNat c) ∧
      ¬ inInt64 (intValue (10 : Int).toNat (lit "9223372036854775808")) ∧
      Calc.convertInt (lit "9223372036854775808") 10 16 = .ok (lit "", some .ErrRange) :=
  ⟨by decide, by decide, by decide, by decide, by decide,
    convertInt_rejects_out_of_range (lit "9223372036854775808") 10 16 (by decide) (by decide)
      (by decide) (by decide) (by decide)⟩


/-- A string `ParseInt` accepts in a base `2..36` is an optional sign followed by one or
more digits of the base, and the number returned is the one the string denotes. -/
theorem ParseInt_success (b : Int) (hb : 2 ≤ b ∧ b ≤ 36) (s : GoString) (v : Int)
    (h : ParseInt s b = (v, none)) :
    unsignedPart s ≠ [] ∧ (∀ c ∈ unsignedPart s, validDigit b.toNat c) ∧
      v = intValue b.toNat s := by
  by_cases hwf : unsignedPart s = [] ∨ ∃ c ∈ unsignedPart s, ¬ validDigit b.toNat c
  · obtain ⟨v2, e, he⟩ := ParseInt_invalid b hb s hwf
    rw [he] at h
    simp at h
  · have hne : unsignedPart s ≠ [] := fun hx => hwf (Or.inl hx)
    have hv : ∀ c ∈ unsignedPart s, validDigit b.toNat c := by
      intro c hc
      by_contra hbad
      exact hwf (Or.inr ⟨c, hc, hbad⟩)
    refine ⟨hne, hv, ?_⟩
    have hW := ParseInt_wellformed b hb s hne hv
    rw [h] at hW
    by_cases hin : inInt64 (intValue b.toNat s)
    · rw [if_pos hin] at hW
      simp only [Prod.mk.injEq, and_true] at hW
      exact hW
    · rw [if_neg hin] at hW
      simp at hW

/-- C7: for every `fromBase` and `toBase` in `2..16` and every `val` for which
`convertInt(val, fromBase, toBase)` succeeds with result `r`: parsing `r` in `toBase`
yields the integer that `val` denotes in `fromBase` (the one `ParseInt` read from `val`),
and `r` is an optional leading `-` followed by one or more of the characters `0-9`,
lowercase `a-f` that are digits of `toBase`. -/
theorem convertInt_preserves_value (val r : GoString) (fromBase toBase : Int)
    (hf : 2 ≤ fromBase ∧ fromBase ≤ 16) (ht : 2 ≤ toBase ∧ toBase ≤ 16)
    (h : Calc.convertInt val fromBase toBase = .ok (r, none)) :
    (∃ v, ParseInt val fromBase = (v, none) ∧ v = intValue fromBase.toNat val ∧
        ParseInt r toBase = (v, none)) ∧
      ∃ body, (r = body ∨ r = 45 :: body) ∧ body ≠ [] ∧
        ∀ c ∈ body, lowerDigit toBase.toNat c := by
  obtain ⟨v, hp, hfmt⟩ := convertInt_success val r fromBase toBase h
  have hin := ParseInt_inInt64 val fromBase v hp
  have ht36 : 2 ≤ toBase ∧ toBase ≤ 36 := ⟨ht.1, by omega⟩
  obtain ⟨s, hs, hps⟩ := ParseInt_FormatInt v toBase ht36 hin
  have hsr : s = r := by
    rw [hs] at hfmt
    exact Except.ok.inj hfmt
  subst hsr
  refine ⟨⟨v, hp, (ParseInt_success fromBase ⟨hf.1, by omega⟩ val v hp).2.2, hps⟩, ?_⟩
  have hE := FormatInt_eq v toBase ht36 hin
  rw [hs] at hE
  have hs2 := Except.ok.inj hE
  refine ⟨formatLoop toBase.toNat 64 v.natAbs [], ?_, formatLoop_ne_nil _ _ _, ?_⟩
  · by_cases hneg : v < 0
    · right; rw [hs2, if_pos hneg]
    · left; rw [hs2, if_neg hneg]
  · intro c hc
    obtain ⟨d, hd, rfl⟩ := formatLoop_digits toBase.toNat (by omega) 64 v.natAbs c hc
    exact lowerDigit_digitAt_table toBase.toNat (by omega) d hd

/-- An instance: `"-Ff"` from base 16 to base 2. -/
theorem convertInt_preserves_value_witness :
    (2 ≤ (16 : Int) ∧ (16 : Int) ≤ 16) ∧ (2 ≤ (2 : Int) ∧ (2 : Int) ≤ 16) ∧
      Calc.convertInt (lit "-Ff") 16 2 = .ok (lit "-11111111", none) ∧
      ((∃ v, ParseInt (lit "-Ff") 16 = (v, none) ∧ v = intValue (16 : Int).toNat (lit "-Ff") ∧
          ParseInt (lit "-11111111") 2 = (v, none)) ∧
        ∃ body, (lit "-11111111" = body ∨ lit "-11111111" = 45 :: body) ∧ body ≠ [] ∧
          ∀ c ∈ body, lowerDigit (2 : Int).toNat c) :=
  ⟨by decide, by decide, by decide,
    convertInt_preserves_value (lit "-Ff") (lit "-11111111") 16 2 (by decide) (by decide)
      (by decide)⟩


/-! ## `evaluate` and `operation` -/

theorem lit_empty : lit "" = [] := rfl

theorem ParseInt_zero : ParseInt (lit "0") 10 = (0, none) := by decide

/-- The shared tail of `evaluate` renders an `int64` in the current base, when that base
is one `FormatInt` accepts. -/
theorem showResult_ok (c : Calc) (res : Int) (hb : 2 ≤ c.base ∧ c.base ≤ 36)
    (hin : inInt64 res) :
    ∃ r, FormatInt res c.base = .ok r ∧ c.showResult res = .ok (c.clear.setText r) := by
  obtain ⟨s, r, hs, hr, hc⟩ := convertInt_FormatInt res 10 c.base (by decide) hb hin
  refine ⟨r, hr, ?_⟩
  simp [Calc.showResult, hs, hc]

/-- The state `evaluate` reaches when both operands parse and no division by zero occurs. -/
theorem evaluate_ok (s : Calc) (p c : Int) (hb : 2 ≤ s.base ∧ s.base ≤ 36)
    (hp : ParseInt s.prev 10 = (p, none)) (hc : readsCurrent s c)
    (hop : isOperator s.lastOp) (hz : ¬ (s.lastOp = 47 ∧ c = 0)) :
    ∃ r, FormatInt (arith s.lastOp p c) s.base = .ok r ∧
      s.evaluate = .ok { output := r, res := [], base := s.base, prev := lit "0", lastOp := 43 } := by
  have hcur : (if s.output ≠ lit "" then ParseInt s.output s.base else (0, none)) = (c, none) := by
    rw [lit_empty]
    rcases hc with ⟨h1, h2⟩ | h1
    · rw [if_neg (by simp [h1]), h2]
    · have hne : s.output ≠ [] := by
        intro h0
        rw [h0] at h1
        simp [ParseInt] at h1
      rw [if_pos hne, h1]
  obtain ⟨r, hr, hs⟩ := showResult_ok s (arith s.lastOp p c) hb (wrap64_inInt64 _)
  refine ⟨r, hr, ?_⟩
  have hcl : s.clear.setText r =
      { output := r, res := [], base := s.base, prev := lit "0", lastOp := 43 } := by
    simp [Calc.clear, Calc.setText, Calc.display, lit_empty]
  rw [← hcl, ← hs]
  unfold Calc.evaluate
  simp only [hp, hcur]
  unfold isOperator at hop
  unfold arith exactOp
  rcases hop with h | h | h | h
  · simp [h]
  · simp [h]
  · simp [h]
  · have hc0 : c ≠ 0 := fun h0 => hz ⟨h, h0⟩
    simp [h, hc0]

theorem operation_eq_arm (s : Calc) (op : Int) (hop : isOperator op) :
    s.operation op = s.operationArm op := by
  unfold isOperator at hop
  unfold Calc.operation
  rcases hop with h | h | h | h <;> subst h <;> simp

/-- The state `operation` reaches when both operands parse and no division by zero occurs. -/
theorem operation_ok (s : Calc) (op p c : Int) (hb : 2 ≤ s.base ∧ s.base ≤ 36)
    (hop : isOperator op)
    (hp : ParseInt s.prev 10 = (p, none)) (hc : readsCurrent s c)
    (hlast : isOperator s.lastOp) (hz : ¬ (s.lastOp = 47 ∧ c = 0)) :
    ∃ r d, FormatInt (arith s.lastOp p c) s.base = .ok r ∧
      FormatInt (arith s.lastOp p c) 10 = .ok d ∧
      s.operation op = .ok { output := r, res := [], base := s.base, prev := d, lastOp := op } := by
  obtain ⟨r, hr, hev⟩ := evaluate_ok s p c hb hp hc hlast hz
  have hin : inInt64 (arith s.lastOp p c) := wrap64_inInt64 _
  obtain ⟨r2, d, hr2, hd, hconv⟩ := convertInt_FormatInt (arith s.lastOp p c) s.base 10 hb
    (by decide) hin
  have hrr : r2 = r := by
    rw [hr] at hr2
    exact (Except.ok.inj hr2).symm
  subst hrr
  refine ⟨r2, d, hr, hd, ?_⟩
  rw [operation_eq_arm s op hop]
  simp [Calc.operationArm, hev, hconv]

/-- C1: for every state whose `prev` is a base-10 `int64` `p`, whose label is empty
(current value `c = 0`) or parses in the current base (2..16) as an `int64` `c`, whose
pending operator is one of `+ - * /`, and where not (operator `/` and `c = 0`):
`evaluate` leaves the label equal to the rendering in the current base of `p op c`
(64-bit wrap-around arithmetic, division truncating toward zero), `prev` equal to `"0"`,
the pending operator equal to `+`, and the base unchanged. -/
theorem evaluate_computes (s : Calc) (p c : Int) (hb : 2 ≤ s.base ∧ s.base ≤ 16)
    (hp : ParseInt s.prev 10 = (p, none))
    (hc : (s.output = [] ∧ c = 0) ∨ ParseInt s.output s.base = (c, none))
    (hop : s.lastOp = 43 ∨ s.lastOp = 45 ∨ s.lastOp = 42 ∨ s.lastOp = 47)
    (hz : ¬ (s.lastOp = 47 ∧ c = 0)) :
    ∃ s1 r, s.evaluate = .ok s1 ∧ FormatInt (arith s.lastOp p c) s.base = .ok r ∧
      s1.output = r ∧ s1.prev = lit "0" ∧ s1.lastOp = 43 ∧ s1.base = s.base := by
  obtain ⟨r, hr, hev⟩ := evaluate_ok s p c ⟨hb.1, by omega⟩ hp hc hop hz
  exact ⟨_, r, hev, hr, rfl, rfl, rfl, rfl⟩

/-- An instance: `-7 * ff` in base 16. -/
theorem evaluate_computes_witness :
    (2 ≤ (16 : Int) ∧ (16 : Int) ≤ 16) ∧
      ParseInt (lit "-7") 10 = (-7, none) ∧
      ParseInt (lit "ff") 16 = (255, none) ∧
      ∃ s1 r, Calc.evaluate
          { output := lit "ff", res := [], base := 16, prev := lit "-7", lastOp := 42 } = .ok s1 ∧
        FormatInt (arith 42 (-7) 255) 16 = .ok r ∧
        s1.output = r ∧ s1.prev = lit "0" ∧ s1.lastOp = 43 ∧ s1.base = 16 :=
  ⟨by decide, by decide, by decide,
    evaluate_computes
      { output := lit "ff", res := [], base := 16, prev := lit "-7", lastOp := 42 } (-7) 255
      (by decide) (by decide) (Or.inr (by decide)) (by decide) (by decide)⟩


/-! ## Typing -/

theorem runeString_ascii (k : Nat) (hk : k ≤ 127) : runeString (k : Int) = [k] := by
  have h : ((k : Int) % 4294967296).toNat = k := by omega
  simp only [runeString, h]
  rw [if_pos hk]

theorem step_keyAction (c : Calc) (k : Nat) (hk : k ≤ 127) :
    step c (keyAction k) = .ok (c.display (c.res ++ [k])) := by
  unfold keyAction
  by_cases h : 48 ≤ k ∧ k ≤ 57
  · rw [if_pos h]
    have hw : wrap32 (wrap32 ((k : Int) - 48) + 48) = (k : Int) := by
      unfold wrap32
      omega
    simp only [step, Calc.digit, Calc.character, hw, runeString_ascii k hk]
  · rw [if_neg h]
    simp only [step, Calc.character, runeString_ascii k hk]

theorem runActions_cons_ok (c c1 : Calc) (a : Action) (rest : List Action)
    (h : step c a = .ok c1) : runActions c (a :: rest) = runActions c1 rest := by
  simp [runActions, h]

/-- Typing a string on a state whose label shows the typed buffer appends the string. -/
theorem runActions_keys_synced (x : GoString) : ∀ (c : Calc) (rest : List Action),
    (∀ k ∈ x, k ≤ 127) → c.output = c.res →
      runActions c (keys x ++ rest) = runActions (c.display (c.res ++ x)) rest := by
  induction x with
  | nil =>
    intro c rest _ hsync
    have : c.display (c.res ++ []) = c := by
      cases c
      simp_all [Calc.display]
    rw [this]
    rfl
  | cons k x ih =>
    intro c rest hk _
    have hk1 : k ≤ 127 := hk k (List.mem_cons_self k x)
    have hstep := step_keyAction c k hk1
    show runActions c (keyAction k :: (keys x ++ rest)) = _
    rw [runActions_cons_ok c _ _ _ hstep,
      ih _ rest (fun j hj => hk j (List.mem_cons_of_mem k hj)) rfl]
    simp [Calc.display]

/-- Typing a non-empty string replaces the label by the typed buffer followed by the string. -/
theorem runActions_keys (x : GoString) (c : Calc) (rest : List Action)
    (hx : x ≠ []) (hk : ∀ k ∈ x, k ≤ 127) :
    runActions c (keys x ++ rest) = runActions (c.display (c.res ++ x)) rest := by
  obtain ⟨k, t, rfl⟩ := List.exists_cons_of_ne_nil hx
  have hk1 : k ≤ 127 := hk k (List.mem_cons_self k t)
  have hstep := step_keyAction c k hk1
  show runActions c (keyAction k :: (keys t ++ rest)) = _
  rw [runActions_cons_ok c _ _ _ hstep,
    runActions_keys_synced t _ rest (fun j hj => hk j (List.mem_cons_of_mem k hj)) rfl]
  simp [Calc.display]

theorem anyCaseDigit_ascii (b c : Nat) (h : anyCaseDigit b c) : c ≤ 127 := by
  unfold anyCaseDigit lowerDigit at h
  omega

/-- `ParseInt` on an unsigned digit string whose value is an `int64`. -/
theorem ParseInt_digits (b : Int) (hb : 2 ≤ b ∧ b ≤ 36) (x : GoString) (hx : x ≠ [])
    (hd : ∀ c ∈ x, anyCaseDigit b.toNat c) (hv : inInt64 (accVal b.toNat 0 x)) :
    ParseInt x b = (((accVal b.toNat 0 x : Nat) : Int), none) := by
  obtain ⟨c, t, hct⟩ := List.exists_cons_of_ne_nil hx
  have hvalid : ∀ c ∈ x, validDigit b.toNat c :=
    fun c hc => validDigit_of_anyCaseDigit _ c (hd c hc)
  have hc := validDigit_not_sign _ c (hvalid c (by rw [hct]; exact List.mem_cons_self c t))
  have hup : unsignedPart x = x := by
    rw [hct]; simp [unsignedPart, hc.1, hc.2]
  have hng : isNeg x = false := by
    rw [hct]; simp [isNeg, hc.2]
  have hW := ParseInt_wellformed b hb x (by rw [hup]; exact hx) (by rw [hup]; exact hvalid)
  have hiv : intValue b.toNat x = (accVal b.toNat 0 x : Nat) := by
    simp [intValue, hng, hup]
  rw [hW, hiv, if_pos hv]

/-! ## The base menu -/

/-- C8: for every state and every `newBase` in `2..16`, after the menu action the base
equals `newBase` whether or not the conversion succeeded; when
`convertInt(label, old base, newBase)` succeeds the label becomes its result, otherwise the
label becomes `"error: cannot convert this number"`. -/
theorem setBase_changes_base (s : Calc) (newBase : Int) (hb : 2 ≤ newBase ∧ newBase ≤ 16) :
    ∃ s1 r e, Calc.convertInt s.output s.base newBase = .ok (r, e) ∧
      s.setBase newBase = .ok s1 ∧ s1.base = newBase ∧
      (e = none → s1.output = r) ∧
      (e ≠ none → s1.output = lit "error: cannot convert this number") := by
  obtain ⟨r, e, hconv⟩ := convertInt_total s.output s.base newBase ⟨hb.1, by omega⟩
  refine ⟨Calc.setText { s with base := newBase } (if e ≠ none then errText else r), r, e,
    hconv, ?_, ?_, ?_, ?_⟩
  · simp only [Calc.setBase, hconv]
  · rfl
  · intro he
    simp [Calc.setText, he]
  · intro he
    simp [Calc.setText, he, errText]

/-- An instance: the label `12a` of a base-10 state, new base 2. -/
theorem setBase_changes_base_witness :
    (2 ≤ (2 : Int) ∧ (2 : Int) ≤ 16) ∧
      ∃ s1 r e, Calc.convertInt (lit "12a") 10 2 = .ok (r, e) ∧
        Calc.setBase
          { output := lit "12a", res := lit "12a", base := 10, prev := lit "0", lastOp := 43 }
          2 = .ok s1 ∧ s1.base = 2 ∧
        (e = none → s1.output = r) ∧
        (e ≠ none → s1.output = lit "error: cannot convert this number") :=
  ⟨by decide, setBase_changes_base
    { output := lit "12a", res := lit "12a", base := 10, prev := lit "0", lastOp := 43 }
    2 (by decide)⟩

/-! ## `operation` on a conversion error -/

/-- C10 as stated fails: on a fresh calculator with `a` typed (base 10), `operation('+')`
runs `evaluate`, which puts the error message on the label; converting that label to
base 10 fails, and `operation` then stores the empty string in `prev`, which was `"0"`. -/
theorem operation_error_overwrites_prev :
    (newCalculator.character 97).prev = lit "0" ∧
      (newCalculator.character 97).evaluate =
        .ok { output := errText, res := lit "a", base := 10, prev := lit "0", lastOp := 43 } ∧
      Calc.convertInt errText 10 10 = .ok (lit "", some .ErrSyn) ∧
      (newCalculator.character 97).operation 43 =
        .ok { output := errText, res := lit "a", base := 10, prev := lit "", lastOp := 43 } ∧
      lit "" ≠ lit "0" := by
  decide

/-- C10, amended: for every state and operator `op` in `+ - * /` such that, after the
`evaluate` step of `operation(op)`, converting the label from the current base to base 10
fails, `operation(op)` sets `prev` to the empty string (the string `convertInt` returns
with its error), and the pending operator to `op`. -/
theorem operation_conversion_error (s s1 : Calc) (op : Int) (r : GoString) (e : NumErr)
    (hop : op = 43 ∨ op = 45 ∨ op = 42 ∨ op = 47)
    (hev : s.evaluate = .ok s1)
    (hconv : Calc.convertInt s1.output s1.base 10 = .ok (r, some e)) :
    s.operation op = .ok { s1 with prev := lit "", lastOp := op } := by
  have hr : r = lit "" := by
    cases hp : ParseInt s1.output s1.base with
    | mk v err =>
      cases err with
      | some e2 =>
        rw [convertInt_err _ _ _ v e2 hp] at hconv
        simp only [Except.ok.injEq, Prod.mk.injEq] at hconv
        exact hconv.1.symm
      | none =>
        simp only [Calc.convertInt, hp] at hconv
        split at hconv <;> simp at hconv
  subst hr
  rw [operation_eq_arm s op hop]
  simp [Calc.operationArm, hev, hconv]

/-- An instance: the label `12` in base 2, where `evaluate` already fails. -/
theorem operation_conversion_error_witness :
    ((45 : Int) = 43 ∨ (45 : Int) = 45 ∨ (45 : Int) = 42 ∨ (45 : Int) = 47) ∧
      Calc.evaluate
          { output := lit "12", res := lit "12", base := 2, prev := lit "7", lastOp := 42 } =
        .ok { output := errText, res := lit "12", base := 2, prev := lit "7", lastOp := 42 } ∧
      Calc.convertInt errText 2 10 = .ok (lit "", some .ErrSyn) ∧
      Calc.operation
          { output := lit "12", res := lit "12", base := 2, prev := lit "7", lastOp := 42 } 45 =
        .ok { output := errText, res := lit "12", base := 2, prev := lit "", lastOp := 45 } :=
  ⟨by decide, by decide, by decide,
    operation_conversion_error
      { output := lit "12", res := lit "12", base := 2, prev := lit "7", lastOp := 42 }
      { output := errText, res := lit "12", base := 2, prev := lit "7", lastOp := 42 }
      45 (lit "") .ErrSyn (by decide) (by decide) (by decide)⟩


/-! ## Calculations -/

theorem ParseInt_of_FormatInt (n b : Int) (s : GoString) (hb : 2 ≤ b ∧ b ≤ 36)
    (hn : inInt64 n) (hs : FormatInt n b = .ok s) : ParseInt s b = (n, none) := by
  obtain ⟨s2, hs2, hp⟩ := ParseInt_FormatInt n b hb hn
  rw [hs] at hs2
  rw [Except.ok.inj hs2]
  exact hp

theorem arith_exact (op p c : Int) (h : inInt64 (exactOp op p c)) :
    arith op p c = exactOp op p c := wrap64_id _ h

theorem arith_plus_zero (v : Int) (h : inInt64 v) : arith 43 0 v = v := by
  have : exactOp 43 0 v = v := by simp [exactOp]
  rw [arith, this, wrap64_id v h]

theorem isOperand_parse (b : Int) (hb : 2 ≤ b ∧ b ≤ 36) (x : GoString)
    (hx : isOperand b.toNat x) : ParseInt x b = (((accVal b.toNat 0 x : Nat) : Int), none) :=
  ParseInt_digits b hb x hx.1 hx.2.1 hx.2.2

theorem isOperand_ascii (b : Nat) (x : GoString) (hx : isOperand b x) : ∀ k ∈ x, k ≤ 127 :=
  fun k hk => anyCaseDigit_ascii b k (hx.2.1 k hk)

theorem FormatInt_inj (n b : Int) (r1 r2 : GoString) (h1 : FormatInt n b = .ok r1)
    (h2 : FormatInt n b = .ok r2) : r1 = r2 := by
  rw [h1] at h2
  exact Except.ok.inj h2

/-- After `clear`, typing an operand and pressing an operator leaves the operand, rendered
in the current base, on the label and, rendered in base 10, in `prev`. -/
theorem run_first_operand (s0 : Calc) (op : Int) (x r d : GoString) (rest : List Action)
    (hb : 2 ≤ s0.base ∧ s0.base ≤ 36) (hop : isOperator op) (hx : isOperand s0.base.toNat x)
    (hr : FormatInt (accVal s0.base.toNat 0 x : Nat) s0.base = .ok r)
    (hd : FormatInt (accVal s0.base.toNat 0 x : Nat) 10 = .ok d) :
    runActions s0 (.clear :: (keys x ++ .operation op :: rest)) =
      runActions { output := r, res := [], base := s0.base, prev := d, lastOp := op } rest := by
  have hA : s0.clear.display (s0.clear.res ++ x) =
      { output := x, res := x, base := s0.base, prev := lit "0", lastOp := 43 } := by
    simp [Calc.clear, Calc.display, lit_empty]
  have hparse := isOperand_parse s0.base hb x hx
  obtain ⟨r2, d2, hr2, hd2, hstep⟩ := operation_ok
    { output := x, res := x, base := s0.base, prev := lit "0", lastOp := 43 } op 0
    (accVal s0.base.toNat 0 x : Nat) hb hop ParseInt_zero (Or.inr hparse) (Or.inl rfl)
    (by simp)
  dsimp only at hr2 hd2 hstep
  simp only [arith_plus_zero _ hx.2.2] at hr2 hd2
  rw [FormatInt_inj _ _ _ _ hr2 hr, FormatInt_inj _ _ _ _ hd2 hd] at hstep
  rw [runActions_cons_ok s0 s0.clear .clear _ rfl,
    runActions_keys x s0.clear _ hx.1 (isOperand_ascii _ x hx), hA,
    runActions_cons_ok _ _ (.operation op) rest hstep]

/-- With `p` pending under operator `op`, typing an operand and pressing an operator
folds the operand into the total. -/
theorem run_next_operation (o d : GoString) (b op op2 p : Int) (y r d2 : GoString)
    (rest : List Action) (hb : 2 ≤ b ∧ b ≤ 36) (hop : isOperator op) (hop2 : isOperator op2)
    (hp : ParseInt d 10 = (p, none)) (hy : isOperand b.toNat y)
    (hz : ¬ (op = 47 ∧ accVal b.toNat 0 y = 0))
    (hr : FormatInt (arith op p (accVal b.toNat 0 y : Nat)) b = .ok r)
    (hd : FormatInt (arith op p (accVal b.toNat 0 y : Nat)) 10 = .ok d2) :
    runActions { output := o, res := [], base := b, prev := d, lastOp := op }
        (keys y ++ .operation op2 :: rest) =
      runActions { output := r, res := [], base := b, prev := d2, lastOp := op2 } rest := by
  have hparse := isOperand_parse b hb y hy
  obtain ⟨r3, d3, hr3, hd3, hstep⟩ := operation_ok
    { output := y, res := y, base := b, prev := d, lastOp := op } op2 p
    (accVal b.toNat 0 y : Nat) hb hop2 hp (Or.inr hparse) hop
    (by intro h; exact hz ⟨h.1, by exact_mod_cast h.2⟩)
  dsimp only at hr3 hd3 hstep
  rw [FormatInt_inj _ _ _ _ hr3 hr, FormatInt_inj _ _ _ _ hd3 hd] at hstep
  rw [runActions_keys y _ _ hy.1 (isOperand_ascii _ y hy)]
  simp only [Calc.display, List.nil_append]
  rw [runActions_cons_ok _ _ (.operation op2) rest hstep]

/-- With `p` pending under operator `op`, typing an operand and pressing `=` shows the
result. -/
theorem run_next_evaluate (o d : GoString) (b op p : Int) (y r : GoString)
    (hb : 2 ≤ b ∧ b ≤ 36) (hop : isOperator op)
    (hp : ParseInt d 10 = (p, none)) (hy : isOperand b.toNat y)
    (hz : ¬ (op = 47 ∧ accVal b.toNat 0 y = 0))
    (hr : FormatInt (arith op p (accVal b.toNat 0 y : Nat)) b = .ok r) :
    runActions { output := o, res := [], base := b, prev := d, lastOp := op }
        (keys y ++ [.evaluate]) =
      .ok { output := r, res := [], base := b, prev := lit "0", lastOp := 43 } := by
  have hparse := isOperand_parse b hb y hy
  obtain ⟨r3, hr3, hstep⟩ := evaluate_ok
    { output := y, res := y, base := b, prev := d, lastOp := op } p
    (accVal b.toNat 0 y : Nat) hb hp (Or.inr hparse) hop
    (by intro h; exact hz ⟨h.1, by exact_mod_cast h.2⟩)
  dsimp only at hr3 hstep
  rw [FormatInt_inj _ _ _ _ hr3 hr] at hstep
  rw [runActions_keys y _ _ hy.1 (isOperand_ascii _ y hy)]
  simp only [Calc.display, List.nil_append]
  rw [runActions_cons_ok _ _ .evaluate [] hstep]
  rfl

/-- C2: for every base `b` in `2..16` (the base of the starting state), every operator
`op` in `+ - * /` and every two non-empty digit strings `x`, `y` of base `b` whose values
fit in `int64` (`y` not zero when `op` is `/`), the sequence clear, type `x`,
`operation(op)`, type `y`, `evaluate` ends with the label equal to the base-`b` rendering
of `x op y` (`int64` arithmetic), `prev == "0"` and the pending operator `+`. -/
theorem single_calculation (s0 : Calc) (op : Int) (x y : GoString)
    (hb : 2 ≤ s0.base ∧ s0.base ≤ 16)
    (hop : op = 43 ∨ op = 45 ∨ op = 42 ∨ op = 47)
    (hx : isOperand s0.base.toNat x) (hy : isOperand s0.base.toNat y)
    (hz : ¬ (op = 47 ∧ accVal s0.base.toNat 0 y = 0)) :
    ∃ s r,
      runActions s0 (.clear :: (keys x ++ .operation op :: (keys y ++ [.evaluate]))) = .ok s ∧
      FormatInt (arith op (accVal s0.base.toNat 0 x : Nat) (accVal s0.base.toNat 0 y : Nat))
        s0.base = .ok r ∧
      s.output = r ∧ s.prev = lit "0" ∧ s.lastOp = 43 := by
  have hb36 : 2 ≤ s0.base ∧ s0.base ≤ 36 := ⟨hb.1, by omega⟩
  obtain ⟨r1, hr1⟩ := FormatInt_ok (accVal s0.base.toNat 0 x : Nat) s0.base hb36
  obtain ⟨d1, hd1⟩ := FormatInt_ok (accVal s0.base.toNat 0 x : Nat) 10 (by decide)
  obtain ⟨r, hr⟩ := FormatInt_ok
    (arith op (accVal s0.base.toNat 0 x : Nat) (accVal s0.base.toNat 0 y : Nat)) s0.base hb36
  have hp := ParseInt_of_FormatInt _ 10 d1 (by decide) hx.2.2 hd1
  refine ⟨{ output := r, res := [], base := s0.base, prev := lit "0", lastOp := 43 }, r,
    ?_, hr, rfl, rfl, rfl⟩
  rw [run_first_operand s0 op x r1 d1 _ hb36 hop hx hr1 hd1,
    run_next_evaluate r1 d1 s0.base op _ y r hb36 hop hp hy hz hr]

/-- The spec's instance: `5 + 3` in base 10. -/
theorem single_calculation_witness :
    (2 ≤ newCalculator.base ∧ newCalculator.base ≤ 16) ∧
      isOperand newCalculator.base.toNat (lit "5") ∧
      isOperand newCalculator.base.toNat (lit "3") ∧
      ∃ s r,
        runActions newCalculator
          (.clear :: (keys (lit "5") ++ .operation 43 :: (keys (lit "3") ++ [.evaluate]))) =
            .ok s ∧
        FormatInt (arith 43 (accVal newCalculator.base.toNat 0 (lit "5") : Nat)
          (accVal newCalculator.base.toNat 0 (lit "3") : Nat)) newCalculator.base = .ok r ∧
        s.output = r ∧ s.prev = lit "0" ∧ s.lastOp = 43 :=
  ⟨by decide, by decide, by decide,
    single_calculation newCalculator 43 (lit "5") (lit "3") (by decide) (by decide) (by decide)
      (by decide) (by decide)⟩

/-- C3: for every base `b` in `2..16`, operators `op1`, `op2` and digit strings `x`, `y`,
`z` of base `b` (values and intermediate results within `int64`, no division by zero):
right after clear, type `x`, `operation(op1)`, type `y`, `operation(op2)` the label is the
base-`b` rendering of `x op1 y`, the pending operator is `op2` and `prev` is the base-10
string of `x op1 y`; and continuing with type `z`, `evaluate` displays the base-`b`
rendering of `(x op1 y) op2 z`. -/
theorem operators_chain (s0 : Calc) (op1 op2 : Int) (x y z : GoString)
    (hb : 2 ≤ s0.base ∧ s0.base ≤ 16)
    (hop1 : op1 = 43 ∨ op1 = 45 ∨ op1 = 42 ∨ op1 = 47)
    (hop2 : op2 = 43 ∨ op2 = 45 ∨ op2 = 42 ∨ op2 = 47)
    (hx : isOperand s0.base.toNat x) (hy : isOperand s0.base.toNat y)
    (hz : isOperand s0.base.toNat z)
    (hdiv1 : ¬ (op1 = 47 ∧ accVal s0.base.toNat 0 y = 0))
    (hdiv2 : ¬ (op2 = 47 ∧ accVal s0.base.toNat 0 z = 0))
    (hin1 : inInt64 (exactOp op1 (accVal s0.base.toNat 0 x : Nat) (accVal s0.base.toNat 0 y : Nat)))
    (hin2 : inInt64 (exactOp op2
      (exactOp op1 (accVal s0.base.toNat 0 x : Nat) (accVal s0.base.toNat 0 y : Nat))
      (accVal s0.base.toNat 0 z : Nat))) :
    ∃ s2 s3 r1 d1 r2,
      runActions s0
        (.clear :: (keys x ++ .operation op1 :: (keys y ++ [.operation op2]))) = .ok s2 ∧
      FormatInt (exactOp op1 (accVal s0.base.toNat 0 x : Nat) (accVal s0.base.toNat 0 y : Nat))
        s0.base = .ok r1 ∧
      FormatInt (exactOp op1 (accVal s0.base.toNat 0 x : Nat) (accVal s0.base.toNat 0 y : Nat))
        10 = .ok d1 ∧
      s2.output = r1 ∧ s2.lastOp = op2 ∧ s2.prev = d1 ∧
      runActions s0
        (.clear :: (keys x ++ .operation op1 :: (keys y ++ .operation op2 ::
          (keys z ++ [.evaluate])))) = .ok s3 ∧
      FormatInt (exactOp op2
        (exactOp op1 (accVal s0.base.toNat 0 x : Nat) (accVal s0.base.toNat 0 y : Nat))
        (accVal s0.base.toNat 0 z : Nat)) s0.base = .ok r2 ∧
      s3.output = r2 := by
  have hb36 : 2 ≤ s0.base ∧ s0.base ≤ 36 := ⟨hb.1, by omega⟩
  obtain ⟨ra, hra⟩ := FormatInt_ok (accVal s0.base.toNat 0 x : Nat) s0.base hb36
  obtain ⟨da, hda⟩ := FormatInt_ok (accVal s0.base.toNat 0 x : Nat) 10 (by decide)
  obtain ⟨r1, hr1⟩ := FormatInt_ok
    (exactOp op1 (accVal s0.base.toNat 0 x : Nat) (accVal s0.base.toNat 0 y : Nat)) s0.base hb36
  obtain ⟨d1, hd1⟩ := FormatInt_ok
    (exactOp op1 (accVal s0.base.toNat 0 x : Nat) (accVal s0.base.toNat 0 y : Nat)) 10
    (by decide)
  obtain ⟨r2, hr2⟩ := FormatInt_ok (exactOp op2
    (exactOp op1 (accVal s0.base.toNat 0 x : Nat) (accVal s0.base.toNat 0 y : Nat))
    (accVal s0.base.toNat 0 z : Nat)) s0.base hb36
  have hp := ParseInt_of_FormatInt _ 10 da (by decide) hx.2.2 hda
  have hp2 := ParseInt_of_FormatInt _ 10 d1 (by decide) hin1 hd1
  have hr1a := hr1
  have hd1a := hd1
  have hr2a := hr2
  rw [← arith_exact _ _ _ hin1] at hr1a hd1a
  rw [← arith_exact _ _ _ hin2] at hr2a
  refine ⟨{ output := r1, res := [], base := s0.base, prev := d1, lastOp := op2 },
    { output := r2, res := [], base := s0.base, prev := lit "0", lastOp := 43 },
    r1, d1, r2, ?_, hr1, hd1, rfl, rfl, rfl, ?_, hr2, rfl⟩
  · rw [run_first_operand s0 op1 x ra da _ hb36 hop1 hx hra hda,
      run_next_operation ra da s0.base op1 op2 _ y r1 d1 [] hb36 hop1 hop2 hp hy hdiv1 hr1a hd1a]
    rfl
  · rw [run_first_operand s0 op1 x ra da _ hb36 hop1 hx hra hda,
      run_next_operation ra da s0.base op1 op2 _ y r1 d1 _ hb36 hop1 hop2 hp hy hdiv1 hr1a hd1a,
      run_next_evaluate r1 d1 s0.base op2 _ z r2 hb36 hop2 hp2 hz hdiv2 hr2a]

/-- An instance: `2 + 3 * 4` in base 10, computed as `(2 + 3) * 4`. -/
theorem operators_chain_witness :
    (2 ≤ newCalculator.base ∧ newCalculator.base ≤ 16) ∧
      isOperand newCalculator.base.toNat (lit "2") ∧
      isOperand newCalculator.base.toNat (lit "3") ∧
      isOperand newCalculator.base.toNat (lit "4") ∧
      ∃ s2 s3 r1 d1 r2,
        runActions newCalculator (.clear :: (keys (lit "2") ++ .operation 43 ::
          (keys (lit "3") ++ [.operation 42]))) = .ok s2 ∧
        FormatInt (exactOp 43 (accVal newCalculator.base.toNat 0 (lit "2") : Nat)
          (accVal newCalculator.base.toNat 0 (lit "3") : Nat)) newCalculator.base = .ok r1 ∧
        FormatInt (exactOp 43 (accVal newCalculator.base.toNat 0 (lit "2") : Nat)
          (accVal newCalculator.base.toNat 0 (lit "3") : Nat)) 10 = .ok d1 ∧
        s2.output = r1 ∧ s2.lastOp = 42 ∧ s2.prev = d1 ∧
        runActions newCalculator (.clear :: (keys (lit "2") ++ .operation 43 ::
          (keys (lit "3") ++ .operation 42 :: (keys (lit "4") ++ [.evaluate])))) = .ok s3 ∧
        FormatInt (exactOp 42
          (exactOp 43 (accVal newCalculator.base.toNat 0 (lit "2") : Nat)
            (accVal newCalculator.base.toNat 0 (lit "3") : Nat))
          (accVal newCalculator.base.toNat 0 (lit "4") : Nat)) newCalculator.base = .ok r2 ∧
        s3.output = r2 :=
  ⟨by decide, by decide, by decide, by decide,
    operators_chain newCalculator 43 42 (lit "2") (lit "3") (lit "4") (by decide) (by decide)
      (by decide) (by decide) (by decide) (by decide) (by decide) (by decide) (by decide)
      (by decide)⟩

/-- C9: for every pair of bases `b1`, `b2` in `2..16`, operator `op` and non-empty digit
string `x` of base `b1` with value `v` within `int64`, the sequence clear (base `b1`), type
`x`, `operation(op)`, `setBase(b2)` ends with the label equal to the base-`b2` rendering of
`v`, base `b2`, pending operator `op`, and `prev` still the base-10 string of `v`. -/
theorem base_change_keeps_total (s0 : Calc) (b2 op : Int) (x : GoString)
    (hb1 : 2 ≤ s0.base ∧ s0.base ≤ 16) (hb2 : 2 ≤ b2 ∧ b2 ≤ 16)
    (hop : op = 43 ∨ op = 45 ∨ op = 42 ∨ op = 47)
    (hx : isOperand s0.base.toNat x) :
    ∃ s r d,
      runActions s0 (.clear :: (keys x ++ [.operation op, .setBase b2])) = .ok s ∧
      FormatInt (accVal s0.base.toNat 0 x : Nat) b2 = .ok r ∧
      FormatInt (accVal s0.base.toNat 0 x : Nat) 10 = .ok d ∧
      s.output = r ∧ s.base = b2 ∧ s.lastOp = op ∧ s.prev = d := by
  have hb36 : 2 ≤ s0.base ∧ s0.base ≤ 36 := ⟨hb1.1, by omega⟩
  obtain ⟨r1, r, hr1, hr, hconv⟩ := convertInt_FormatInt (accVal s0.base.toNat 0 x : Nat)
    s0.base b2 hb36 ⟨hb2.1, by omega⟩ hx.2.2
  obtain ⟨d, hd⟩ := FormatInt_ok (accVal s0.base.toNat 0 x : Nat) 10 (by decide)
  refine ⟨{ output := r, res := [], base := b2, prev := d, lastOp := op }, r, d,
    ?_, hr, hd, rfl, rfl, rfl, rfl⟩
  rw [run_first_operand s0 op x r1 d _ hb36 hop hx hr1 hd]
  simp [runActions, step, Calc.setBase, hconv, Calc.setText]

/-- The spec's instance: `f` in base 16, `+`, then base 10. -/
theorem base_change_keeps_total_witness :
    (2 ≤ (16 : Int) ∧ (16 : Int) ≤ 16) ∧ (2 ≤ (10 : Int) ∧ (10 : Int) ≤ 16) ∧
      isOperand (16 : Int).toNat (lit "f") ∧
      ∃ s r d,
        runActions { output := [], res := [], base := 16, prev := lit "0", lastOp := 43 }
          (.clear :: (keys (lit "f") ++ [.operation 43, .setBase 10])) = .ok s ∧
        FormatInt (accVal (16 : Int).toNat 0 (lit "f") : Nat) 10 = .ok r ∧
        FormatInt (accVal (16 : Int).toNat 0 (lit "f") : Nat) 10 = .ok d ∧
        s.output = r ∧ s.base = 10 ∧ s.lastOp = 43 ∧ s.prev = d :=
  ⟨by decide, by decide, by decide,
    base_change_keeps_total
      { output := [], res := [], base := 16, prev := lit "0", lastOp := 43 }
      10 43 (lit "f") (by decide) (by decide) (by decide) (by decide)⟩


/-! ## `evaluate`: failures and faults -/

theorem evaluate_prev_fails (s : Calc) (h : (ParseInt s.prev 10).2 ≠ none) :
    s.evaluate = .ok (s.setText errText) := by
  unfold Calc.evaluate
  cases hp : ParseInt s.prev 10 with
  | mk v err =>
    rw [hp] at h
    cases err with
    | none => exact absurd rfl h
    | some e => rfl

theorem evaluate_current_fails (s : Calc) (hne : s.output ≠ [])
    (h : (ParseInt s.output s.base).2 ≠ none) : s.evaluate = .ok (s.setText errText) := by
  by_cases hprev : (ParseInt s.prev 10).2 ≠ none
  · exact evaluate_prev_fails s hprev
  · unfold Calc.evaluate
    cases hp : ParseInt s.prev 10 with
    | mk v err =>
      rw [hp] at hprev
      cases err with
      | some e => exact absurd (by simp) hprev
      | none =>
        cases hc : ParseInt s.output s.base with
        | mk w err2 =>
          rw [hc] at h
          cases err2 with
          | none => exact absurd rfl h
          | some e2 =>
            simp only [lit_empty, if_pos hne, hc]

/-- C11: for every state in which `prev` is not a base-10 `int64`, or the label is
non-empty and is not an `int64` in the current base, `evaluate` sets the label to
`"error: cannot convert this number"` and changes nothing else: `prev`, the pending
operator, the base and the typed buffer stay as they were (no arithmetic is done). -/
theorem evaluate_aborts (s : Calc)
    (h : (ParseInt s.prev 10).2 ≠ none ∨
      (s.output ≠ [] ∧ (ParseInt s.output s.base).2 ≠ none)) :
    s.evaluate = .ok { s with output := lit "error: cannot convert this number" } := by
  rcases h with h | ⟨hne, h⟩
  · exact evaluate_prev_fails s h
  · exact evaluate_current_fails s hne h

/-- Two instances: `prev` empty; and the label `12` in base 2. -/
theorem evaluate_aborts_witness :
    Calc.evaluate { output := lit "1", res := lit "1", base := 10, prev := lit "", lastOp := 45 } =
        .ok { output := errText, res := lit "1", base := 10, prev := lit "", lastOp := 45 } ∧
      ((ParseInt (lit "7") 10).2 ≠ none ∨
        (lit "12" ≠ [] ∧ (ParseInt (lit "12") 2).2 ≠ none)) ∧
      Calc.evaluate { output := lit "12", res := [], base := 2, prev := lit "7", lastOp := 42 } =
        .ok { output := errText, res := [], base := 2, prev := lit "7", lastOp := 42 } :=
  ⟨evaluate_aborts
      { output := lit "1", res := lit "1", base := 10, prev := lit "", lastOp := 45 }
      (Or.inl (by decide)),
    by decide,
    evaluate_aborts
      { output := lit "12", res := [], base := 2, prev := lit "7", lastOp := 42 }
      (Or.inr (by decide))⟩

/-- With both operands parsed and the operator `/`, a zero divisor makes `evaluate` panic. -/
theorem evaluate_divide_by_zero (s : Calc) (p : Int)
    (hp : ParseInt s.prev 10 = (p, none)) (hc : readsCurrent s 0) (hop : s.lastOp = 47) :
    s.evaluate = .error .divideByZero := by
  have hcur : (if s.output ≠ lit "" then ParseInt s.output s.base else (0, none)) =
      ((0 : Int), none) := by
    rw [lit_empty]
    rcases hc with ⟨h1, _⟩ | h1
    · rw [if_neg (by simp [h1])]
    · have hne : s.output ≠ [] := by
        intro h0
        rw [h0] at h1
        simp [ParseInt] at h1
      rw [if_pos hne, h1]
  unfold Calc.evaluate
  simp only [hp, hcur]
  simp [hop]

/-- With both operands parsed and a base in `2..36`, `evaluate` returns a state unless it
divides by zero. -/
theorem evaluate_completes (s : Calc) (p c : Int) (hb : 2 ≤ s.base ∧ s.base ≤ 36)
    (hp : ParseInt s.prev 10 = (p, none)) (hc : readsCurrent s c)
    (hz : ¬ (s.lastOp = 47 ∧ c = 0)) : ∃ s1, s.evaluate = .ok s1 := by
  by_cases hop : isOperator s.lastOp
  · obtain ⟨r, _, hev⟩ := evaluate_ok s p c hb hp hc hop hz
    exact ⟨_, hev⟩
  · have hcur : (if s.output ≠ lit "" then ParseInt s.output s.base else (0, none)) =
        (c, none) := by
      rw [lit_empty]
      rcases hc with ⟨h1, h2⟩ | h1
      · rw [if_neg (by simp [h1]), h2]
      · have hne : s.output ≠ [] := by
          intro h0
          rw [h0] at h1
          simp [ParseInt] at h1
        rw [if_pos hne, h1]
    unfold isOperator at hop
    refine ⟨s, ?_⟩
    unfold Calc.evaluate
    simp only [hp, hcur]
    rw [if_neg (by tauto), if_neg (by tauto), if_neg (by tauto), if_neg (by tauto)]

/-- C12: for every state (base in `2..16`) whose `prev` parses as a base-10 `int64` and
whose label is empty or parses in the current base, with current value `c`: `evaluate`
panics with an integer division by zero if and only if the pending operator is `/` and
`c` is zero; in every other such state `evaluate` completes and returns a state. -/
theorem evaluate_faults_only_on_zero_divisor (s : Calc) (p c : Int)
    (hb : 2 ≤ s.base ∧ s.base ≤ 16)
    (hp : ParseInt s.prev 10 = (p, none))
    (hc : (s.output = [] ∧ c = 0) ∨ ParseInt s.output s.base = (c, none)) :
    (s.evaluate = .error .divideByZero ↔ (s.lastOp = 47 ∧ c = 0)) ∧
      (¬ (s.lastOp = 47 ∧ c = 0) → ∃ s1, s.evaluate = .ok s1) := by
  have hcomp := evaluate_completes s p c ⟨hb.1, by omega⟩ hp hc
  refine ⟨⟨?_, ?_⟩, hcomp⟩
  · intro hpanic
    by_contra hz
    obtain ⟨s1, hs1⟩ := hcomp hz
    rw [hs1] at hpanic
    cases hpanic
  · rintro ⟨hop, rfl⟩
    exact evaluate_divide_by_zero s p hp hc hop

/-- Two instances in base 10 with `prev = 7`: the label `00` under `/` faults, the empty
label under `-` does not. -/
theorem evaluate_faults_only_on_zero_divisor_witness :
    ((2 ≤ (10 : Int) ∧ (10 : Int) ≤ 16) ∧ ParseInt (lit "7") 10 = (7, none) ∧
        ParseInt (lit "00") 10 = (0, none) ∧
        Calc.evaluate { output := lit "00", res := [], base := 10, prev := lit "7", lastOp := 47 } =
          .error .divideByZero) ∧
      ∃ s1, Calc.evaluate { output := [], res := [], base := 10, prev := lit "7", lastOp := 45 } =
        .ok s1 :=
  ⟨⟨by decide, by decide, by decide,
      ((evaluate_faults_only_on_zero_divisor
        { output := lit "00", res := [], base := 10, prev := lit "7", lastOp := 47 } 7 0
        (by decide) (by decide) (Or.inr (by decide))).1).2 (by decide)⟩,
    (evaluate_faults_only_on_zero_divisor
      { output := [], res := [], base := 10, prev := lit "7", lastOp := 45 } 7 0
      (by decide) (by decide) (Or.inl (by decide))).2 (by decide)⟩

/-! ## `clear`, `backspace`, `character` -/

/-- C13: for every state, after `clear` the label and the typed buffer are empty,
`prev == "0"`, the pending operator is `+`, and the base is what it was. -/
theorem clear_resets (s : Calc) :
    s.clear.output = [] ∧ s.clear.res = [] ∧ s.clear.prev = lit "0" ∧ s.clear.lastOp = 43 ∧
      s.clear.base = s.base :=
  ⟨rfl, rfl, rfl, rfl, rfl⟩


/-- C14 fails on the code, whose comment reads "backspace deletes last symbol from the
output": `backspace` cuts the typed buffer `res` and shows that, whatever the label holds.
After `1`, `2`, base menu `2` the label reads `1100` and `backspace` turns it into `1`,
not `110`; after `5 + 3 =` the label reads `8` and `backspace` leaves it as it is. -/
theorem backspace_cuts_buffer_not_label :
    (runActions newCalculator (keys (lit "12") ++ [.setBase 2]) =
        .ok { output := lit "1100", res := lit "12", base := 2, prev := lit "0", lastOp := 43 } ∧
      Calc.backspace
          { output := lit "1100", res := lit "12", base := 2, prev := lit "0", lastOp := 43 } =
        { output := lit "1", res := lit "1", base := 2, prev := lit "0", lastOp := 43 }) ∧
      (runActions newCalculator
          (keys (lit "5") ++ .operation 43 :: (keys (lit "3") ++ [.evaluate])) =
        .ok { output := lit "8", res := [], base := 10, prev := lit "0", lastOp := 43 } ∧
      Calc.backspace
          { output := lit "8", res := [], base := 10, prev := lit "0", lastOp := 43 } =
        { output := lit "8", res := [], base := 10, prev := lit "0", lastOp := 43 }) := by
  decide

/-- C16 fails on the code: after a failed `evaluate` (`7 +`, then `a`, `b`, `=`) and after
a failed base change (`a`, `b`, base menu `2`) the label reads
`"error: cannot convert this number"` while the buffer still holds `ab`; `backspace`
compares the buffer with `"error"`, finds it different, and shows `a`: the state is not
the one `clear` gives, and `prev` stays `7` in the first case. -/
theorem backspace_after_error_message :
    (runActions newCalculator
          (keys (lit "7") ++ .operation 43 :: (keys (lit "ab") ++ [.evaluate])) =
        .ok { output := errText, res := lit "ab", base := 10, prev := lit "7", lastOp := 43 } ∧
      Calc.backspace
          { output := errText, res := lit "ab", base := 10, prev := lit "7", lastOp := 43 } =
        { output := lit "a", res := lit "a", base := 10, prev := lit "7", lastOp := 43 } ∧
      Calc.clear
          { output := errText, res := lit "ab", base := 10, prev := lit "7", lastOp := 43 } =
        { output := [], res := [], base := 10, prev := lit "0", lastOp := 43 }) ∧
      (runActions newCalculator (keys (lit "ab") ++ [.setBase 2]) =
        .ok { output := errText, res := lit "ab", base := 2, prev := lit "0", lastOp := 43 } ∧
      Calc.backspace
          { output := errText, res := lit "ab", base := 2, prev := lit "0", lastOp := 43 } =
        { output := lit "a", res := lit "a", base := 2, prev := lit "0", lastOp := 43 }) := by
  decide

/-- C17 as stated fails: after `5 + 3 =` the label reads `8` and the typed buffer is
empty; `character('1')` (and `digit(1)`) then shows `1`, not `81`. -/
theorem character_after_result_replaces_label :
    runActions newCalculator
        (keys (lit "5") ++ .operation 43 :: (keys (lit "3") ++ [.evaluate])) =
      .ok { output := lit "8", res := [], base := 10, prev := lit "0", lastOp := 43 } ∧
    (Calc.character
        { output := lit "8", res := [], base := 10, prev := lit "0", lastOp := 43 } 49).output =
      lit "1" ∧
    (Calc.digit
        { output := lit "8", res := [], base := 10, prev := lit "0", lastOp := 43 } 1).output =
      lit "1" ∧
    lit "1" ≠ lit "8" ++ lit "1" := by
  decide

/-- C17, amended: for every state and every character `c`, after `character(c)` the typed
buffer and the label both equal the typed buffer before the call followed by `c` (so the
label before the call followed by `c` whenever the label showed the buffer), and `prev`,
the pending operator and the base are unchanged; `digit(d)` for `d` in `0..9` does the
same with the decimal digit character of `d`. -/
theorem character_appends_to_buffer (s : Calc) (c d : Int) (hd : 0 ≤ d ∧ d ≤ 9) :
    ((s.character c).output = s.res ++ runeString c ∧
        (s.character c).res = s.res ++ runeString c ∧
        (s.output = s.res → (s.character c).output = s.output ++ runeString c) ∧
        (s.character c).prev = s.prev ∧ (s.character c).lastOp = s.lastOp ∧
        (s.character c).base = s.base) ∧
      (s.digit d = s.character (48 + d) ∧ runeString (48 + d) = [(48 + d).toNat]) := by
  refine ⟨⟨rfl, rfl, ?_, rfl, rfl, rfl⟩, ?_, ?_⟩
  · intro h
    rw [h]
    rfl
  · have hw : wrap32 (wrap32 d + 48) = 48 + d := by
      unfold wrap32
      omega
    simp only [Calc.digit, hw]
  · obtain ⟨k, hk⟩ : ∃ k : Nat, 48 + d = (k : Int) := ⟨(48 + d).toNat, by omega⟩
    rw [hk, runeString_ascii k (by omega)]
    simp

/-- An instance: `digit(7)` on a state showing `12` appends the byte of `7`. -/
theorem character_appends_to_buffer_witness :
    (0 ≤ (7 : Int) ∧ (7 : Int) ≤ 9) ∧
      Calc.digit { output := lit "12", res := lit "12", base := 10, prev := lit "0", lastOp := 43 } 7 =
        { output := lit "127", res := lit "127", base := 10, prev := lit "0", lastOp := 43 } ∧
      Calc.digit { output := lit "12", res := lit "12", base := 10, prev := lit "0", lastOp := 43 } 7 =
        Calc.character
          { output := lit "12", res := lit "12", base := 10, prev := lit "0", lastOp := 43 }
          (48 + 7) :=
  ⟨by decide, by decide,
    (character_appends_to_buffer
      { output := lit "12", res := lit "12", base := 10, prev := lit "0", lastOp := 43 }
      97 7 (by decide)).2.1⟩


/-! ## Running `evaluate` again -/

theorem FormatInt_ok_base (n b : Int) (r : GoString) (h : FormatInt n b = .ok r) :
    2 ≤ b ∧ b ≤ 36 := by
  by_contra hb
  unfold FormatInt at h
  rw [if_pos (by omega)] at h
  cases h

/-- A state the shared tail of `evaluate` returns: the base is one `FormatInt` accepts and
the state is the cleared one with the rendering on the label. -/
theorem showResult_shape (c s1 : Calc) (v : Int) (hv : inInt64 v)
    (h : c.showResult v = .ok s1) :
    ∃ r, (2 ≤ c.base ∧ c.base ≤ 36) ∧ FormatInt v c.base = .ok r ∧
      s1 = { output := r, res := [], base := c.base, prev := lit "0", lastOp := 43 } := by
  obtain ⟨dec, hdec⟩ := FormatInt_ok v 10 (by decide)
  have hp := ParseInt_of_FormatInt v 10 dec (by decide) hv hdec
  simp only [Calc.showResult, hdec, Calc.convertInt, hp] at h
  cases hf : FormatInt v c.base with
  | error p => simp [hf] at h
  | ok r =>
    simp only [hf, Except.ok.injEq] at h
    refine ⟨r, FormatInt_ok_base v c.base r hf, rfl, ?_⟩
    rw [← h]
    simp [Calc.clear, Calc.setText, Calc.display, lit_empty]

/-- A state `evaluate` returns without taking an error return is either the state it
started from (no arm of the switch applies) or a cleared state showing an `int64`. -/
theorem evaluate_success_shape (s s1 : Calc)
    (hp : (ParseInt s.prev 10).2 = none)
    (hc : s.output = [] ∨ (ParseInt s.output s.base).2 = none)
    (h : s.evaluate = .ok s1) :
    s1 = s ∨ ∃ v r, inInt64 v ∧ (2 ≤ s.base ∧ s.base ≤ 36) ∧ FormatInt v s.base = .ok r ∧
      s1 = { output := r, res := [], base := s.base, prev := lit "0", lastOp := 43 } := by
  obtain ⟨p, hp2⟩ : ∃ p, ParseInt s.prev 10 = (p, none) := by
    cases hq : ParseInt s.prev 10 with
    | mk p e =>
      rw [hq] at hp
      exact ⟨p, by simpa using hp⟩
  obtain ⟨c, hcur⟩ : ∃ c, (if s.output ≠ lit "" then ParseInt s.output s.base else (0, none)) =
      ((c : Int), none) := by
    rw [lit_empty]
    by_cases hne : s.output = []
    · exact ⟨0, by rw [if_neg (by simp [hne])]⟩
    · rcases hc with hc | hc
      · exact absurd hc hne
      · cases hq : ParseInt s.output s.base with
        | mk c e =>
          rw [hq] at hc
          exact ⟨c, by rw [if_pos hne]; simpa using hc⟩
  unfold Calc.evaluate at h
  simp only [hp2, hcur] at h
  have key : ∀ v, s.showResult (wrap64 v) = .ok s1 →
      ∃ v r, inInt64 v ∧ (2 ≤ s.base ∧ s.base ≤ 36) ∧ FormatInt v s.base = .ok r ∧
        s1 = { output := r, res := [], base := s.base, prev := lit "0", lastOp := 43 } := by
    intro v hv
    obtain ⟨r, hb, hr, hs1⟩ := showResult_shape s s1 (wrap64 v) (wrap64_inInt64 v) hv
    exact ⟨wrap64 v, r, wrap64_inInt64 v, hb, hr, hs1⟩
  by_cases h1 : s.lastOp = 43
  · rw [if_pos h1] at h
    exact Or.inr (key _ h)
  rw [if_neg h1] at h
  by_cases h2 : s.lastOp = 45
  · rw [if_pos h2] at h
    exact Or.inr (key _ h)
  rw [if_neg h2] at h
  by_cases h3 : s.lastOp = 42
  · rw [if_pos h3] at h
    exact Or.inr (key _ h)
  rw [if_neg h3] at h
  by_cases h4 : s.lastOp = 47
  · rw [if_pos h4] at h
    by_cases h5 : c = 0
    · rw [if_pos h5] at h
      cases h
    · rw [if_neg h5] at h
      exact Or.inr (key _ h)
  · rw [if_neg h4] at h
    left
    exact (Except.ok.inj h).symm

/-- C18: for every state in which `evaluate` completes without an error string (neither
`prev` nor a non-empty label fails to parse) and without a fault, running `evaluate` a
second time leaves the whole state (label, typed buffer, `prev`, pending operator, base)
exactly as the first run left it. -/
theorem evaluate_idempotent (s s1 : Calc)
    (hp : (ParseInt s.prev 10).2 = none)
    (hc : s.output = [] ∨ (ParseInt s.output s.base).2 = none)
    (h : s.evaluate = .ok s1) :
    s1.evaluate = .ok s1 := by
  rcases evaluate_success_shape s s1 hp hc h with hs | ⟨v, r, hv, hb, hr, hs⟩
  · rw [hs]
    rw [hs] at h
    exact h
  · subst hs
    have hpr := ParseInt_of_FormatInt v s.base r hb hv hr
    obtain ⟨r2, hr2, hev⟩ := evaluate_ok
      { output := r, res := [], base := s.base, prev := lit "0", lastOp := 43 } 0 v hb
      ParseInt_zero (Or.inr hpr) (Or.inl rfl) (by simp)
    dsimp only at hr2 hev
    rw [arith_plus_zero v hv] at hr2
    rw [FormatInt_inj _ _ _ _ hr2 hr] at hev
    exact hev

/-- An instance: `7 * ff` in base 16 gives `6f9`, and `evaluate` keeps that state. -/
theorem evaluate_idempotent_witness :
    Calc.evaluate { output := lit "ff", res := lit "ff", base := 16, prev := lit "7", lastOp := 42 } =
        .ok { output := lit "6f9", res := [], base := 16, prev := lit "0", lastOp := 43 } ∧
      Calc.evaluate { output := lit "6f9", res := [], base := 16, prev := lit "0", lastOp := 43 } =
        .ok { output := lit "6f9", res := [], base := 16, prev := lit "0", lastOp := 43 } :=
  ⟨by decide,
    evaluate_idempotent
      { output := lit "ff", res := lit "ff", base := 16, prev := lit "7", lastOp := 42 }
      { output := lit "6f9", res := [], base := 16, prev := lit "0", lastOp := 43 }
      (by decide) (Or.inr (by decide)) (by decide)⟩

/-- C19: for every base `b` in `2..16`, operator `op` in `+ - * /` and non-empty digit
string `x` of base `b` with value `v` within `int64` (`v` not zero when `op` is `/`), the
sequence clear, type `x`, `operation(op)`, `evaluate` displays the base-`b` rendering of
`v op v` (`int64` arithmetic). -/
theorem operator_then_equals (s0 : Calc) (op : Int) (x : GoString)
    (hb : 2 ≤ s0.base ∧ s0.base ≤ 16)
    (hop : op = 43 ∨ op = 45 ∨ op = 42 ∨ op = 47)
    (hx : isOperand s0.base.toNat x)
    (hz : ¬ (op = 47 ∧ accVal s0.base.toNat 0 x = 0)) :
    ∃ s r,
      runActions s0 (.clear :: (keys x ++ [.operation op, .evaluate])) = .ok s ∧
      FormatInt (arith op (accVal s0.base.toNat 0 x : Nat) (accVal s0.base.toNat 0 x : Nat))
        s0.base = .ok r ∧
      s.output = r := by
  have hb36 : 2 ≤ s0.base ∧ s0.base ≤ 36 := ⟨hb.1, by omega⟩
  obtain ⟨r1, hr1⟩ := FormatInt_ok (accVal s0.base.toNat 0 x : Nat) s0.base hb36
  obtain ⟨d1, hd1⟩ := FormatInt_ok (accVal s0.base.toNat 0 x : Nat) 10 (by decide)
  have hp := ParseInt_of_FormatInt _ 10 d1 (by decide) hx.2.2 hd1
  have hc := ParseInt_of_FormatInt _ s0.base r1 hb36 hx.2.2 hr1
  obtain ⟨r, hr, hev⟩ := evaluate_ok
    { output := r1, res := [], base := s0.base, prev := d1, lastOp := op }
    (accVal s0.base.toNat 0 x : Nat) (accVal s0.base.toNat 0 x : Nat) hb36 hp (Or.inr hc) hop
    (by intro h; exact hz ⟨h.1, by exact_mod_cast h.2⟩)
  dsimp only at hr hev
  refine ⟨{ output := r, res := [], base := s0.base, prev := lit "0", lastOp := 43 }, r,
    ?_, hr, rfl⟩
  rw [run_first_operand s0 op x r1 d1 _ hb36 hop hx hr1 hd1,
    runActions_cons_ok _ _ .evaluate [] hev]
  rfl

/-- An instance: `c`, `*`, `=` in base 16 shows `90` (144). -/
theorem operator_then_equals_witness :
    (2 ≤ (16 : Int) ∧ (16 : Int) ≤ 16) ∧ isOperand (16 : Int).toNat (lit "c") ∧
      ∃ s r,
        runActions { output := [], res := [], base := 16, prev := lit "0", lastOp := 43 }
          (.clear :: (keys (lit "c") ++ [.operation 42, .evaluate])) = .ok s ∧
        FormatInt (arith 42 (accVal (16 : Int).toNat 0 (lit "c") : Nat)
          (accVal (16 : Int).toNat 0 (lit "c") : Nat)) 16 = .ok r ∧
        s.output = r :=
  ⟨by decide, by decide,
    operator_then_equals
      { output := [], res := [], base := 16, prev := lit "0", lastOp := 43 }
      42 (lit "c") (by decide) (by decide) (by decide) (by decide)⟩


/-! ## The typed buffer -/

theorem showResult_res (c s1 : Calc) (v : Int) (h : c.showResult v = .ok s1) : s1.res = [] := by
  unfold Calc.showResult at h
  split at h
  · cases h
  · split at h
    · cases h
    · rw [← Except.ok.inj h]
      rfl

/-- The function `evaluate` leaves the typed buffer as it was or empties it. -/
theorem evaluate_res (s s1 : Calc) (h : s.evaluate = .ok s1) : s1.res = s.res ∨ s1.res = [] := by
  unfold Calc.evaluate at h
  split at h
  · left
    rw [← Except.ok.inj h]
    rfl
  · split at h
    · left
      rw [← Except.ok.inj h]
      rfl
    · by_cases h1 : s.lastOp = 43
      · rw [if_pos h1] at h
        exact Or.inr (showResult_res s s1 _ h)
      rw [if_neg h1] at h
      by_cases h2 : s.lastOp = 45
      · rw [if_pos h2] at h
        exact Or.inr (showResult_res s s1 _ h)
      rw [if_neg h2] at h
      by_cases h3 : s.lastOp = 42
      · rw [if_pos h3] at h
        exact Or.inr (showResult_res s s1 _ h)
      rw [if_neg h3] at h
      by_cases h4 : s.lastOp = 47
      · rw [if_pos h4] at h
        split at h
        · cases h
        · exact Or.inr (showResult_res s s1 _ h)
      · rw [if_neg h4] at h
        left
        rw [← Except.ok.inj h]

theorem operationArm_res (s s1 : Calc) (op : Int) (h : s.operationArm op = .ok s1) :
    s1.res = s.res ∨ s1.res = [] := by
  unfold Calc.operationArm at h
  split at h
  · cases h
  · rename_i c1 hev
    have hres := evaluate_res s c1 hev
    dsimp only at h
    split at h
    · cases h
    · rw [← Except.ok.inj h]
      exact hres

/-- The function `operation` leaves the typed buffer as it was or empties it. -/
theorem operation_res (s s1 : Calc) (op : Int) (h : s.operation op = .ok s1) :
    s1.res = s.res ∨ s1.res = [] := by
  unfold Calc.operation at h
  split_ifs at h
  · exact operationArm_res s s1 _ h
  · exact operationArm_res s s1 _ h
  · exact operationArm_res s s1 _ h
  · exact operationArm_res s s1 _ h
  · left
    rw [← Except.ok.inj h]

/-- The base menu does not touch the typed buffer. -/
theorem setBase_res (s s1 : Calc) (b : Int) (h : s.setBase b = .ok s1) : s1.res = s.res := by
  unfold Calc.setBase at h
  split at h
  · cases h
  · rw [← Except.ok.inj h]
    rfl

theorem calculatorDigits_nil : calculatorDigits [] := by
  intro c hc
  cases hc

theorem calculatorDigits_append (x y : GoString) (hx : calculatorDigits x)
    (hy : calculatorDigits y) : calculatorDigits (x ++ y) := by
  intro c hc
  rcases List.mem_append.mp hc with h | h
  · exact hx c h
  · exact hy c h

theorem calculatorDigits_take (x : GoString) (n : Nat) (hx : calculatorDigits x) :
    calculatorDigits (x.take n) :=
  fun c hc => hx c (List.mem_of_mem_take hc)

theorem character_res (s : Calc) (char : Int) (h : 97 ≤ char ∧ char ≤ 102)
    (hs : calculatorDigits s.res) : calculatorDigits (s.character char).res := by
  obtain ⟨k, hk⟩ : ∃ k : Nat, char = (k : Int) := ⟨char.toNat, by omega⟩
  subst hk
  simp only [Calc.character, Calc.display, runeString_ascii k (by omega)]
  apply calculatorDigits_append _ _ hs
  intro c hc
  rw [List.mem_singleton] at hc
  subst hc
  unfold lowerDigit
  omega

theorem digit_res (s : Calc) (d : Int) (h : 0 ≤ d ∧ d ≤ 9)
    (hs : calculatorDigits s.res) : calculatorDigits (s.digit d).res := by
  obtain ⟨k, hk⟩ : ∃ k : Nat, 48 + d = (k : Int) := ⟨(48 + d).toNat, by omega⟩
  have hw : wrap32 (wrap32 d + 48) = (k : Int) := by
    unfold wrap32
    omega
  simp only [Calc.digit, Calc.character, Calc.display, hw, runeString_ascii k (by omega)]
  apply calculatorDigits_append _ _ hs
  intro c hc
  rw [List.mem_singleton] at hc
  subst hc
  unfold lowerDigit
  omega

theorem backspace_res (s : Calc) (hs : calculatorDigits s.res) :
    calculatorDigits s.backspace.res := by
  unfold Calc.backspace
  split_ifs
  · exact hs
  · exact calculatorDigits_nil
  · exact calculatorDigits_take _ _ hs

/-- Every action of the user interface keeps the typed buffer a string of calculator
digits. -/
theorem step_res (s s1 : Calc) (a : Action) (ha : uiAction a) (hs : calculatorDigits s.res)
    (h : step s a = .ok s1) : calculatorDigits s1.res := by
  cases a with
  | digit d =>
    rw [← Except.ok.inj h]
    exact digit_res s d ha hs
  | character char =>
    rw [← Except.ok.inj h]
    exact character_res s char ha hs
  | operation op =>
    rcases operation_res s s1 op h with h1 | h1
    · rw [h1]; exact hs
    · rw [h1]; exact calculatorDigits_nil
  | evaluate =>
    rcases evaluate_res s s1 h with h1 | h1
    · rw [h1]; exact hs
    · rw [h1]; exact calculatorDigits_nil
  | clear =>
    rw [← Except.ok.inj h]
    exact calculatorDigits_nil
  | backspace =>
    rw [← Except.ok.inj h]
    exact backspace_res s hs
  | setBase b =>
    rw [setBase_res s s1 b h]
    exact hs

theorem runActions_res (acts : List Action) : ∀ (s s1 : Calc),
    (∀ a ∈ acts, uiAction a) → calculatorDigits s.res → runActions s acts = .ok s1 →
      calculatorDigits s1.res := by
  induction acts with
  | nil =>
    intro s s1 _ hs h
    rw [← Except.ok.inj h]
    exact hs
  | cons a rest ih =>
    intro s s1 hui hs h
    simp only [runActions] at h
    split at h
    · cases h
    · rename_i c1 hstep
      exact ih c1 s1 (fun x hx => hui x (List.mem_cons_of_mem a hx))
        (step_res s c1 a (hui a (List.mem_cons_self a rest)) hs hstep) h

theorem calculatorDigits_ne_error (x : GoString) (hx : calculatorDigits x) : x ≠ lit "error" := by
  intro h
  have h1 : ¬ lowerDigit 16 114 := by decide
  exact h1 (hx 114 (by rw [h]; decide))

/-- C20: in every state reachable from `newCalculator()` by the actions the user interface
offers (digit `0`-`9`, character `a`-`f`, operation `+ - * /`, evaluate, clear, backspace,
base change to `2..16`), the typed buffer `res` is a string over the characters `0`-`9`
and `a`-`f`; hence `res` is never `"error"`, and `backspace` never takes the branch that
calls `clear`: it returns the state unchanged or shows the buffer without its last byte. -/
theorem typed_buffer_holds_digits (acts : List Action) (s : Calc)
    (hui : ∀ a ∈ acts, uiAction a) (h : runActions newCalculator acts = .ok s) :
    (∀ c ∈ s.res, lowerDigit 16 c) ∧ s.res ≠ lit "error" ∧
      (s.backspace = s ∨ s.backspace = s.display (s.res.take (s.res.length - 1))) := by
  have hd : calculatorDigits s.res :=
    runActions_res acts newCalculator s hui calculatorDigits_nil h
  have hne := calculatorDigits_ne_error s.res hd
  refine ⟨hd, hne, ?_⟩
  unfold Calc.backspace
  by_cases h0 : s.res.length = 0
  · left
    rw [if_pos h0]
  · right
    rw [if_neg h0, if_neg hne]

/-- An instance: base menu `16`, `f`, `+`, `1`, backspace, `2`, `=`, `3` from a fresh
calculator. -/
theorem typed_buffer_holds_digits_witness :
    (∀ a ∈ [Action.setBase 16, .character 102, .operation 43, .digit 1, .backspace, .digit 2,
        .evaluate, .digit 3], uiAction a) ∧
      runActions newCalculator [.setBase 16, .character 102, .operation 43, .digit 1,
          .backspace, .digit 2, .evaluate, .digit 3] =
        .ok { output := lit "3", res := lit "3", base := 16, prev := lit "0", lastOp := 43 } ∧
      (∀ c ∈ lit "3", lowerDigit 16 c) :=
  ⟨by decide, by decide,
    (typed_buffer_holds_digits
      [.setBase 16, .character 102, .operation 43, .digit 1, .backspace, .digit 2,
        .evaluate, .digit 3]
      { output := lit "3", res := lit "3", base := 16, prev := lit "0", lastOp := 43 }
      (by decide) (by decide)).1⟩


end Calculator
